import Mathlib

/-!
Verification of the wallet-balance-tracker core against its source.

This file gives a shallow embedding, in Lean 4, of the core functions of the
repository (block resolution, freshness checking, multicall balance fetching,
database upsert, batching, and the rate limiter) and proves or refutes the
frozen specification claims about them.

Conventions of the embedding:
- JavaScript Date values and millisecond epochs are modelled as Int.
- Chain block timestamps (unix seconds) are modelled as Int, block numbers as
  Int where the source uses bigint arithmetic that can go negative, and as Nat
  where they are known non-negative.
- Fallible code (thrown exceptions, failed RPC reads) is modelled with Option:
  none means the corresponding JavaScript code threw.
- Stateful code (the sqlite tables, the block-mapping cache) is modelled by
  explicit state passing over association lists.
- The viem isAddress check is modelled as the hex-address shape check; the
  mixed-case checksum validation (which needs keccak) is abstracted away, and
  every concrete input used below is all-lowercase, where the two agree.
-/

/-! ## Address utilities (src/utils.ts) -/

/-- One hex digit, as matched by the address regex 0x[0-9a-fA-F]*. -/
def isHexDigit (c : Char) : Bool :=
  (decide (Char.ofNat 48 ≤ c) && decide (c ≤ Char.ofNat 57)) ||
  (decide (Char.ofNat 97 ≤ c) && decide (c ≤ Char.ofNat 102)) ||
  (decide (Char.ofNat 65 ≤ c) && decide (c ≤ Char.ofNat 70))

/-- Model of the viem isAddress shape check used by standardizeAddress:
a 0x-prefixed 40-hex-digit string (checksum validation abstracted). -/
def isAddrShape (s : String) : Bool :=
  decide (s.take 2 = "0x") && decide (s.length = 42) &&
    (s.drop 2).toList.all isHexDigit

/-- Character-wise lowercasing: the model of the JavaScript toLowerCase and of
the sqlite LOWER, applied to the character list of the string. -/
def strToLower (s : String) : String :=
  String.mk (s.toList.map Char.toLower)

/-- standardizeAddress from src/utils.ts: throws on an invalid address
(modelled as none), otherwise lowercases. -/
def standardizeAddress (s : String) : Option String :=
  if isAddrShape s then some (strToLower s) else none

/-- NATIVE_TOKEN_ADDRESS from src/constants.ts. -/
def NATIVE_TOKEN_ADDRESS : String := "0xeeeeeeeeeeeeeeeeeeeeeeeeeeeeeeeeeeeeeeee"

/-- MULTICALL3_ADDRESS from src/constants.ts. -/
def MULTICALL3_ADDRESS : String := "0xcA11bde05977b3631167028862bE2a173976CA11"

/-! ## Time utilities (src/utils.ts)

Timestamps are millisecond epochs as Int. A calendar date handed to these
functions is represented by any millisecond instant falling on that UTC day
(the tracker passes the UTC midnight of the day). -/

/-- ONE_HOUR_MS from src/utils.ts. -/
def ONE_HOUR_MS : Int := 60 * 60 * 1000

/-- isWithinDuration from src/utils.ts: absolute difference of the two
instants is at most durationMs. -/
def isWithinDuration (timestamp targetTime durationMs : Int) : Bool :=
  decide (|targetTime - timestamp| ≤ durationMs)

/-- getEndOfDay from src/utils.ts: setUTCHours(23, 59, 59, 999) keeps the UTC
calendar day of the instant and moves it to the last millisecond of that day. -/
def getEndOfDay (date : Int) : Int :=
  86400000 * (date.fdiv 86400000) + 86399999

/-- isBalanceTimestampValid from src/utils.ts. The JavaScript takes the current
instant from new Date(); here it is the explicit argument now. -/
def isBalanceTimestampValid (timestamp : Option Int) (date : Int)
    (isCurrentDay : Bool) (now : Int) : Bool :=
  match timestamp with
  | none => false
  | some t =>
    if isCurrentDay then isWithinDuration t now ONE_HOUR_MS
    else isWithinDuration t (getEndOfDay date) (3 * ONE_HOUR_MS)

/-! ## Chain model and block resolution (src/utils.ts, findBlockNumberForTimestamp)

A chain is the latest block number together with the timestamp (unix seconds)
of every block. A block read models client.getBlock: it fails (none, the
JavaScript call throws) outside the range 0..current. -/

/-- The chain as seen by a viem public client: latest block number and a
timestamp for each block number. -/
structure Chain where
  current : Nat
  ts : Nat → Int

/-- client.getBlock for an arbitrary (possibly negative) bigint block number. -/
def getBlock (c : Chain) (b : Int) : Option Int :=
  if 0 ≤ b ∧ b ≤ (c.current : Int) then some (c.ts b.toNat) else none

/-- NETWORK_BLOCK_TIMES from src/constants.ts (milliseconds per block). -/
def NETWORK_BLOCK_TIMES (networkId : Nat) : Option Int :=
  if networkId = 1 then some 12000
  else if networkId = 137 then some 2000
  else if networkId = 42161 then some 250
  else if networkId = 8453 then some 2000
  else if networkId = 10 then some 2000
  else none

/-- DEFAULT_BLOCK_TIME from src/constants.ts. -/
def DEFAULT_BLOCK_TIME : Int := 12000

/-- The backward walk of findBlockNumberForTimestamp: while the timestamp is
after the target and the block number is positive, step one block back and
re-read. Structural recursion on the block number. -/
def walkBack (c : Chain) (target : Int) : Nat → Int → Option (Nat × Int)
  | 0, bTs => some (0, bTs)
  | b + 1, bTs =>
    if target < bTs then
      match getBlock c (b : Int) with
      | none => none
      | some t => walkBack c target b t
    else some (b + 1, bTs)

/-- State of the bounded linear search in findBlockNumberForTimestamp:
the cursor, the closest block seen with its signed timestamp difference, and
the last block seen with timestamp at or before the target. -/
structure SearchState where
  cur : Int
  closest : Int
  closestDiff : Int
  lastBefore : Int
  lastBeforeTs : Int
deriving DecidableEq

/-- The up-to-100-step linear search of findBlockNumberForTimestamp. Each step
moves the cursor by dir, reads the block, updates the last block at or before
the target, then either improves the closest block, stops early when the gap
grows, or stops once within one hour of the target. -/
def linearSearch (c : Chain) (target dir : Int) : Nat → SearchState → Option SearchState
  | 0, st => some st
  | fuel + 1, st =>
    match getBlock c (st.cur + dir) with
    | none => none
    | some bTs =>
      let cur := st.cur + dir
      let diff := bTs - target
      let st1 :=
        if bTs ≤ target then
          { st with cur := cur, lastBefore := cur, lastBeforeTs := bTs }
        else { st with cur := cur }
      if diff.natAbs < st1.closestDiff.natAbs then
        let st2 := { st1 with closest := cur, closestDiff := diff }
        if diff.natAbs ≤ 3600 then some { st2 with closest := cur }
        else linearSearch c target dir fuel st2
      else some st1

/-- findBlockNumberForTimestamp from src/utils.ts. Returns the resolved block
number and its timestamp; none models a thrown chain-read error. -/
def findBlockNumberForTimestamp (c : Chain) (targetTimestamp : Int)
    (networkId : Nat) : Option (Int × Int) :=
  match getBlock c (c.current : Int) with
  | none => none
  | some currentTs =>
    if currentTs < targetTimestamp then some ((c.current : Int), currentTs)
    else
      let blockTimeMs := (NETWORK_BLOCK_TIMES networkId).getD DEFAULT_BLOCK_TIME
      let timeDiffMs := (currentTs - targetTimestamp) * 1000
      let estimatedBlocksAgo := timeDiffMs.fdiv blockTimeMs
      let estimatedBlock := (c.current : Int) - estimatedBlocksAgo
      match getBlock c estimatedBlock with
      | none => none
      | some estTs =>
        if targetTimestamp < estTs then
          (walkBack c targetTimestamp estimatedBlock.toNat estTs).map
            (fun p => ((p.1 : Int), p.2))
        else if (estTs - targetTimestamp).natAbs ≤ 3600 then
          some (estimatedBlock, estTs)
        else
          let dir : Int := if targetTimestamp < estTs then -1 else 1
          match linearSearch c targetTimestamp dir 100
              ⟨estimatedBlock, estimatedBlock, estTs - targetTimestamp,
               estimatedBlock, estTs⟩ with
          | none => none
          | some st =>
            match getBlock c st.closest with
            | none => none
            | some finalTs =>
              if targetTimestamp < finalTs then some (st.lastBefore, st.lastBeforeTs)
              else some (st.closest, finalTs)

/-! ## Block-mapping cache and tracker-side resolution
(src/database.ts getBlockNumberForDate / saveBlockMapping,
src/ui/terminal/index.tsx WalletTracker.getBlockNumberForDate) -/

/-- The block_mapping table: rows keyed by (network id, date string), holding
the resolved block number and its timestamp. -/
abbrev MappingCache := List ((Nat × String) × (Int × Int))

/-- BalanceDatabase.getBlockNumberForDate: the stored block number for the
(network, date) key, or none when the row is absent. -/
def dbGetBlockNumberForDate (cache : MappingCache) (networkId : Nat)
    (date : String) : Option Int :=
  (cache.find? (fun e => e.1 = (networkId, date))).map (fun e => e.2.1)

/-- BalanceDatabase.saveBlockMapping: INSERT OR REPLACE on the
(network id, date) key. -/
def saveBlockMapping (cache : MappingCache) (networkId : Nat) (date : String)
    (blockNumber timestamp : Int) : MappingCache :=
  if cache.any (fun e => e.1 = (networkId, date)) then
    cache.map (fun e =>
      if e.1 = (networkId, date) then ((networkId, date), (blockNumber, timestamp))
      else e)
  else cache ++ [((networkId, date), (blockNumber, timestamp))]

/-- A calendar date as the tracker sees it: its YYYY-MM-DD string (the cache
key) and the millisecond epoch of its UTC midnight (new Date(dateStr)). -/
structure DateM where
  str : String
  startMs : Int

/-- The target unix-second timestamp WalletTracker.getBlockNumberForDate
computes for a date: Math.floor of the end-of-day millisecond instant
(23:59:59.999 UTC) divided by 1000. -/
def targetTimestampOfDate (d : DateM) : Int :=
  (d.startMs + 86399999).fdiv 1000

/-- WalletTracker.getBlockNumberForDate. Returns the resolved block number,
the block-mapping cache after the call, and whether any chain call was made.
The JavaScript cache check is if (existingBlock), which treats a stored block
number 0n as a miss (bigint 0 is falsy); on resolver failure it falls back to
the current block without saving a mapping. -/
def trackerGetBlockNumberForDate (c : Chain) (cache : MappingCache)
    (networkId : Nat) (d : DateM) : Int × MappingCache × Bool :=
  match dbGetBlockNumberForDate cache networkId d.str with
  | some b =>
    if b ≠ 0 then (b, cache, false)
    else
      match findBlockNumberForTimestamp c (targetTimestampOfDate d) networkId with
      | some (bn, bt) => (bn, saveBlockMapping cache networkId d.str bn bt, true)
      | none => ((c.current : Int), cache, true)
  | none =>
    match findBlockNumberForTimestamp c (targetTimestampOfDate d) networkId with
    | some (bn, bt) => (bn, saveBlockMapping cache networkId d.str bn bt, true)
    | none => ((c.current : Int), cache, true)

/-! ## Configuration data model (src/types.ts) -/

/-- A tracked token descriptor from configuration. -/
structure TokenM where
  address : String
  symbol : String
  decimals : Nat
deriving DecidableEq

/-- A native-token descriptor from configuration. -/
structure NativeTokenM where
  symbol : String
  decimals : Nat
deriving DecidableEq

/-- A network from configuration (the fields the embedded code touches). -/
structure NetworkM where
  id : Nat
  name : String
  native_token : NativeTokenM
  tokens : List TokenM
deriving DecidableEq

/-- A wallet from configuration. -/
structure WalletM where
  address : String
  label : Option String
deriving DecidableEq

/-- One token balance inside a WalletBalance. -/
structure TokenBalanceM where
  address : String
  symbol : String
  balance : String
  decimals : Nat
deriving DecidableEq

/-- The WalletBalance result record built by getWalletsBalances and consumed
by BalanceDatabase.saveBalances. -/
structure WalletBalanceM where
  address : String
  label : Option String
  network : String
  network_id : Nat
  native_balance : String
  tokens : List TokenBalanceM
  date : String
deriving DecidableEq

/-! ## Multicall balance fetching (src/utils.ts, getWalletsBalances)

The single client.multicall transport call is modelled by its ordered request
list (buildCalls) and an ordered reply list handed in as an argument: entry k
of the reply answers call k, some n being a successful uint256 read and none a
missing or reverted call. -/

/-- One read inside the multicall request list: a Multicall3 getEthBalance of
an account, or an ERC20 balanceOf on a token contract. -/
inductive MCall where
  | getEthBalance (target : String) (account : String)
  | balanceOf (target : String) (account : String)
deriving DecidableEq

/-- The ordered multicall request list getWalletsBalances builds: one native
balance read per (already standardized) wallet, then one balanceOf per
(token, wallet) pair, grouped by token then by wallet. -/
def buildCalls (ws : List String) (tokens : List TokenM) : List MCall :=
  ws.map (fun a => MCall.getEthBalance MULTICALL3_ADDRESS a) ++
    tokens.flatMap (fun t => ws.map (fun a => MCall.balanceOf t.address a))

/-- The balance string the code decodes at position k of the reply list:
result?.toString() with a fallback of "0" for a missing or reverted entry. -/
def resultAt (results : List (Option Nat)) (k : Nat) : String :=
  match results.get? k with
  | some (some n) => toString n
  | _ => "0"

/-- The per-wallet decoding step of getWalletsBalances: wallet index i reads
its native balance from reply index i and its balance of token j from reply
index W + j * W + i, where W is the wallet count. An out-of-range index models
the JavaScript undefined dereference and fails the whole call. -/
def decodeWallet (network : NetworkM) (results : List (Option Nat)) (W : Nat)
    (i : Nat) (w : WalletM) : Option WalletBalanceM := do
  let nres ← results.get? i
  let tokenBalances ← network.tokens.enum.mapM (fun jt => do
    let r ← results.get? (W + jt.1 * W + i)
    pure { address := jt.2.address, symbol := jt.2.symbol,
           balance := (r.map toString).getD "0",
           decimals := jt.2.decimals : TokenBalanceM })
  pure { address := w.address, label := w.label, network := network.name,
         network_id := network.id,
         native_balance := (nres.map toString).getD "0",
         tokens := tokenBalances, date := "" }

/-- getWalletsBalances from src/utils.ts: standardize the wallet addresses
(throwing on an invalid one), then decode the order-aligned multicall reply. -/
def getWalletsBalances (wallets : List WalletM) (network : NetworkM)
    (results : List (Option Nat)) : Option (List WalletBalanceM) := do
  let ws ← wallets.mapM (fun w =>
    (standardizeAddress w.address).map (fun a => { w with address := a }))
  ws.enum.mapM (fun iw => decodeWallet network results ws.length iw.1 iw.2)

/-- Index-aligned decoding as the specification words it: wallet i takes reply
index i for its native balance and reply index W + j * W + i for token j.
Stated from the spec, to be proved equal to getWalletsBalances. -/
def specDecode (wallets : List WalletM) (network : NetworkM)
    (results : List (Option Nat)) : List WalletBalanceM :=
  wallets.enum.map (fun iw =>
    { address := strToLower iw.2.address, label := iw.2.label,
      network := network.name, network_id := network.id,
      native_balance := resultAt results iw.1,
      tokens := network.tokens.enum.map (fun jt =>
        { address := jt.2.address, symbol := jt.2.symbol,
          balance := resultAt results (wallets.length + jt.1 * wallets.length + iw.1),
          decimals := jt.2.decimals }),
      date := "" })

/-! ## Balance store and upsert (src/database.ts, BalanceDatabase.saveBalances)

The balances table is a list of rows. The INSERT ... ON CONFLICT(
LOWER(wallet_address), network_id, LOWER(token_address), date) DO UPDATE of
saveBalances is an upsert on the lowercased key that overwrites only the
symbol, balance, block_number and timestamp columns of the conflicting row. -/

/-- One row of the balances table. -/
structure BalanceRowM where
  wallet_address : String
  network_id : Nat
  token_address : String
  symbol : String
  balance : String
  block_number : Nat
  timestamp : String
  date : String
deriving DecidableEq

/-- The balances table. -/
abbrev BalanceStore := List BalanceRowM

/-- The case-folded conflict key of the unique index
(LOWER(wallet_address), network_id, LOWER(token_address), date). -/
def keyOf (wallet : String) (networkId : Nat) (token : String) (date : String) :
    String × Nat × String × String :=
  (strToLower wallet, networkId, strToLower token, date)

/-- The conflict key of a stored row. -/
def rowKey (r : BalanceRowM) : String × Nat × String × String :=
  keyOf r.wallet_address r.network_id r.token_address r.date

/-- The sqlite upsert: if a row with the same case-folded key exists, update
its symbol, balance, block_number and timestamp columns in place (the key
columns keep their stored spelling); otherwise append the new row. -/
def upsert (store : BalanceStore) (r : BalanceRowM) : BalanceStore :=
  if store.any (fun x => decide (rowKey x = rowKey r)) then
    store.map (fun x =>
      if rowKey x = rowKey r then
        { x with symbol := r.symbol, balance := r.balance,
                 block_number := r.block_number, timestamp := r.timestamp }
      else x)
  else store ++ [r]

/-- BalanceDatabase.saveBalances: look up the network by name (silently doing
nothing when it is not configured), standardize the wallet address, then in
one transaction upsert the native balance row and one row per token. A thrown
error (invalid address) rolls the transaction back, modelled as none. -/
def saveBalances (networks : List NetworkM) (store : BalanceStore)
    (walletBalance : WalletBalanceM) (blockNumber : Nat) (dateStr : String)
    (timestampStr : String) : Option BalanceStore :=
  match networks.find? (fun n => n.name == walletBalance.network) with
  | none => some store
  | some network => do
    let standardizedAddress ← standardizeAddress walletBalance.address
    let s1 := upsert store
      { wallet_address := standardizedAddress, network_id := network.id,
        token_address := NATIVE_TOKEN_ADDRESS,
        symbol := network.native_token.symbol,
        balance := walletBalance.native_balance,
        block_number := blockNumber, timestamp := timestampStr, date := dateStr }
    walletBalance.tokens.foldlM (fun st tok => do
      let tokenAddress ← standardizeAddress tok.address
      pure (upsert st
        { wallet_address := standardizedAddress, network_id := network.id,
          token_address := tokenAddress, symbol := tok.symbol,
          balance := tok.balance, block_number := blockNumber,
          timestamp := timestampStr, date := dateStr })) s1

/-- At most one row per case-folded key: the invariant the unique index
idx_balances_unique_lower enforces on the balances table. -/
def distinctKeys (store : BalanceStore) : Prop :=
  store.Pairwise (fun a b => rowKey a ≠ rowKey b)

/-! ## Batch fetching (src/ui/terminal/index.tsx,
WalletTracker.fetchAndSaveWalletBatches)

The loop walks the wallet list in slices of WALLET_BALANCE_BATCH_SIZE; each
slice issues one rate-limited getWalletsBalances call, then calls
db.saveBalances once per returned balance. getWalletsBalances returns exactly
one WalletBalance per wallet of the slice (getWalletsBalances_length below),
so the trace records one fetch event per slice and one save-transaction event
per wallet of the slice. -/

/-- WALLET_BALANCE_BATCH_SIZE from src/constants.ts. -/
def WALLET_BALANCE_BATCH_SIZE : Nat := 5

/-- One observable event of fetchAndSaveWalletBatches: a rate-limited
multi-read fetch of a wallet slice, or one saveBalances transaction. -/
inductive BatchEvent (α : Type) where
  | fetch (batch : List α)
  | saveTx (wallet : α)
deriving DecidableEq

/-- The event trace of WalletTracker.fetchAndSaveWalletBatches over a wallet
list. -/
def fetchAndSaveWalletBatches : List α → List (BatchEvent α)
  | [] => []
  | w :: rest =>
    BatchEvent.fetch ((w :: rest).take WALLET_BALANCE_BATCH_SIZE) ::
      (((w :: rest).take WALLET_BALANCE_BATCH_SIZE).map BatchEvent.saveTx ++
        fetchAndSaveWalletBatches ((w :: rest).drop WALLET_BALANCE_BATCH_SIZE))
termination_by l => l.length
decreasing_by
  simp [WALLET_BALANCE_BATCH_SIZE]
  omega

/-- The sizes of the fetch batches in a trace, in order. -/
def fetchBatchSizes (evs : List (BatchEvent α)) : List Nat :=
  evs.filterMap (fun e =>
    match e with
    | BatchEvent.fetch b => some b.length
    | BatchEvent.saveTx _ => none)

/-- The number of saveBalances persistence transactions in a trace. -/
def saveTxCount (evs : List (BatchEvent α)) : Nat :=
  (evs.filter (fun e =>
    match e with
    | BatchEvent.fetch _ => false
    | BatchEvent.saveTx _ => true)).length

/-! ## Rate limiter (src/rate-limiter.ts, RateLimiterManager)

One execute attempt is driven by two environment events: the outcome of the
raced token acquisition (a timeout rejection, or removeTokens resolving to a
truthy or falsy value) and, if a token was acquired, the outcome of the
operation. The recursion consumes one attempt per retry; an exhausted event
list (none) models the still-retrying case of the unbounded retry loop. -/

/-- The outcome of the raced limiter.removeTokens acquisition. -/
inductive AcqOutcome where
  | timeout
  | resolved (tokenRemoved : Bool)
deriving DecidableEq

/-- The environment events of one execute attempt. -/
structure AttemptEv (α : Type) where
  acq : AcqOutcome
  op : Except String α

/-- RateLimiterManager.execute. Returns the surfaced outcome (none while the
retry loop is still running when the events run out) and the number of times
the wrapped operation was invoked. The catch block retries exactly the errors
whose message is the string Rate limit timeout and rethrows every other
error; a missing limiter for the network throws before the try block. -/
def RateLimiterManager.execute (networkIds : List Nat) (networkId : Nat) :
    List (AttemptEv α) → Option (Except String α) × Nat
  | [] =>
    if networkIds.contains networkId then (none, 0)
    else (some (Except.error ("No rate limiter found for network " ++ toString networkId)), 0)
  | a :: rest =>
    if networkIds.contains networkId then
      match a.acq with
      | AcqOutcome.timeout => RateLimiterManager.execute networkIds networkId rest
      | AcqOutcome.resolved false =>
        (some (Except.error "Failed to acquire rate limit token"), 0)
      | AcqOutcome.resolved true =>
        match a.op with
        | Except.ok v => (some (Except.ok v), 1)
        | Except.error m =>
          if m = "Rate limit timeout" then
            let r := RateLimiterManager.execute networkIds networkId rest
            (r.1, r.2 + 1)
          else (some (Except.error m), 1)
    else (some (Except.error ("No rate limiter found for network " ++ toString networkId)), 0)

/-- The wallet-balance record the specification predicts for wallet index i:
native balance from reply index i, token j balance from reply index
W + j * W + i. -/
def specWalletEntry (network : NetworkM) (results : List (Option Nat))
    (W i : Nat) (w : WalletM) : WalletBalanceM :=
  { address := w.address, label := w.label, network := network.name,
    network_id := network.id,
    native_balance := resultAt results i,
    tokens := network.tokens.enum.map (fun jt =>
      { address := jt.2.address, symbol := jt.2.symbol,
        balance := resultAt results (W + jt.1 * W + i),
        decimals := jt.2.decimals }),
    date := "" }

/-! ## Theorems

First the freshness rule, the rate limiter and the batching claims, then the
multicall claims, the block-resolution claims and the upsert claims. -/

/-- C3: isBalanceTimestampValid accepts a historical timestamp exactly when it
is within three hours (inclusive) of the 23:59:59.999 UTC end-of-day instant
of the date, and a current-day timestamp exactly when it is within one hour
(inclusive) of the current instant; concretely, for the historical date
2024-01-01 (end of day 1704153599999 ms) the timestamp 2024-01-02T02:00:00Z
is valid and 2024-01-02T03:01:00Z is invalid, and for today a timestamp 59
minutes old is valid while one 61 minutes old is invalid. -/
theorem freshness_rule (t d now : Int) :
    (isBalanceTimestampValid (some t) d false now = true ↔
      |getEndOfDay d - t| ≤ 3 * ONE_HOUR_MS) ∧
    (isBalanceTimestampValid (some t) d true now = true ↔ |now - t| ≤ ONE_HOUR_MS) ∧
    getEndOfDay 1704067200000 = 1704153599999 ∧
    isBalanceTimestampValid (some 1704160800000) 1704067200000 false now = true ∧
    isBalanceTimestampValid (some 1704164460000) 1704067200000 false now = false ∧
    isBalanceTimestampValid (some (now - 59 * 60000)) d true now = true ∧
    isBalanceTimestampValid (some (now - 61 * 60000)) d true now = false := by
  refine ⟨?_, ?_, by decide, ?_, ?_, ?_, ?_⟩
  · simp [isBalanceTimestampValid, isWithinDuration]
  · simp [isBalanceTimestampValid, isWithinDuration]
  · simp [isBalanceTimestampValid]
    decide
  · simp [isBalanceTimestampValid]
    decide
  · simp [isBalanceTimestampValid, isWithinDuration, ONE_HOUR_MS]
  · simp [isBalanceTimestampValid, isWithinDuration, ONE_HOUR_MS]

/-- C10: executing against a network id that was not in the list given to the
RateLimiterManager constructor throws the no-rate-limiter error and never
invokes the operation (the invocation count is 0), for any event sequence. -/
theorem execute_unknown_network_throws (networkIds : List Nat) (networkId : Nat)
    (events : List (AttemptEv α)) (h : networkIds.contains networkId = false) :
    RateLimiterManager.execute networkIds networkId events =
      (some (Except.error ("No rate limiter found for network " ++ toString networkId)), 0) := by
  have h2 : networkId ∉ networkIds := by simpa using h
  cases events <;> simp [RateLimiterManager.execute, h2]

/-- Witness for execute_unknown_network_throws: network 2 was not configured,
so the call throws and the operation is never run. -/
theorem execute_unknown_network_throws_witness :
    ([1, 137].contains 2) = false ∧
    RateLimiterManager.execute [1, 137] 2
        [⟨AcqOutcome.resolved true, Except.ok (42 : Nat)⟩] =
      (some (Except.error ("No rate limiter found for network " ++ toString 2)), 0) :=
  ⟨by decide, execute_unknown_network_throws [1, 137] 2 _ (by decide)⟩

/-- C6 (amended): an error thrown by the operation whose message is not the
exact string Rate limit timeout propagates immediately to the caller with the
operation having run exactly once, independent of later events; and an
acquisition timeout surfaces no error, the call simply retrying on the
remaining events after the fixed backoff. -/
theorem execute_op_error_propagation (networkIds : List Nat) (networkId : Nat)
    (m : String) (op : Except String α) (rest : List (AttemptEv α))
    (hin : networkIds.contains networkId = true) (hm : m ≠ "Rate limit timeout") :
    RateLimiterManager.execute networkIds networkId
        (⟨AcqOutcome.resolved true, Except.error m⟩ :: rest) =
      (some (Except.error m), 1) ∧
    RateLimiterManager.execute networkIds networkId (⟨AcqOutcome.timeout, op⟩ :: rest) =
      RateLimiterManager.execute networkIds networkId rest := by
  have h2 : networkId ∈ networkIds := by simpa using hin
  constructor <;> simp [RateLimiterManager.execute, h2, hm]

/-- Witness for execute_op_error_propagation at a concrete operation error. -/
theorem execute_op_error_propagation_witness :
    ([1].contains 1) = true ∧ "boom" ≠ "Rate limit timeout" ∧
    (RateLimiterManager.execute [1] 1
        ([⟨AcqOutcome.resolved true, Except.error "boom"⟩] : List (AttemptEv Nat)) =
      (some (Except.error "boom"), 1) ∧
    RateLimiterManager.execute [1] 1 [⟨AcqOutcome.timeout, Except.ok (0 : Nat)⟩] =
      RateLimiterManager.execute [1] 1 []) :=
  ⟨by decide, by decide,
    execute_op_error_propagation [1] 1 "boom" (Except.ok 0) [] (by decide) (by decide)⟩

/-- C6 counterexample: an operation that itself throws an error with message
Rate limit timeout does not propagate: the catch block mistakes it for an
acquisition timeout and retries, invoking the operation a second time and
returning its second result. -/
theorem execute_retries_op_timeout_error :
    RateLimiterManager.execute [1] 1
      [⟨AcqOutcome.resolved true, Except.error "Rate limit timeout"⟩,
       ⟨AcqOutcome.resolved true, Except.ok (42 : Nat)⟩] =
      (some (Except.ok 42), 2) := by
  simp [RateLimiterManager.execute]

/-- Unfolding of the fetchAndSaveWalletBatches trace on a non-empty wallet
list: one fetch of the leading slice, one save transaction per wallet of the
slice, then the trace of the remaining wallets. -/
theorem fetchTrace_ne_nil (l : List α) (h : l ≠ []) :
    fetchAndSaveWalletBatches l =
      BatchEvent.fetch (l.take WALLET_BALANCE_BATCH_SIZE) ::
        ((l.take WALLET_BALANCE_BATCH_SIZE).map BatchEvent.saveTx ++
          fetchAndSaveWalletBatches (l.drop WALLET_BALANCE_BATCH_SIZE)) := by
  cases l with
  | nil => simp at h
  | cons w rest => simp only [fetchAndSaveWalletBatches]

/-- Fetch-batch sizes of a trace that starts with one chunk. -/
theorem fetchBatchSizes_chunk (b : List α) (evs : List (BatchEvent α)) :
    fetchBatchSizes (BatchEvent.fetch b :: (b.map BatchEvent.saveTx ++ evs)) =
      b.length :: fetchBatchSizes evs := by
  simp [fetchBatchSizes, List.filterMap_append, List.filterMap_map, Function.comp]

/-- Save-transaction count of a trace that starts with one chunk. -/
theorem saveTxCount_chunk (b : List α) (evs : List (BatchEvent α)) :
    saveTxCount (BatchEvent.fetch b :: (b.map BatchEvent.saveTx ++ evs)) =
      b.length + saveTxCount evs := by
  simp [saveTxCount, List.filter_append, List.filter_map, Function.comp]

/-- C2 (amended): fetching 12 wallets for one network, date and block with the
default batch size of 5 issues exactly 3 rate-limited multi-read fetch batches
of sizes 5, 5 and 2, and performs exactly 12 persistence transactions, one
saveBalances transaction per wallet, not 3. -/
theorem batch_grouping (wallets : List α) (h : wallets.length = 12) :
    fetchBatchSizes (fetchAndSaveWalletBatches wallets) = [5, 5, 2] ∧
    saveTxCount (fetchAndSaveWalletBatches wallets) = 12 := by
  have h1 : wallets ≠ [] := by
    intro e; rw [e] at h; simp at h
  have hl2 : (wallets.drop WALLET_BALANCE_BATCH_SIZE).length = 7 := by
    simp [WALLET_BALANCE_BATCH_SIZE, h]
  have h2 : wallets.drop WALLET_BALANCE_BATCH_SIZE ≠ [] := by
    intro e; rw [e] at hl2; simp at hl2
  have hl3 : ((wallets.drop WALLET_BALANCE_BATCH_SIZE).drop
      WALLET_BALANCE_BATCH_SIZE).length = 2 := by
    simp [WALLET_BALANCE_BATCH_SIZE, h]
  have h3 : (wallets.drop WALLET_BALANCE_BATCH_SIZE).drop WALLET_BALANCE_BATCH_SIZE ≠ [] := by
    intro e; rw [e] at hl3; simp at hl3
  have h4 : ((wallets.drop WALLET_BALANCE_BATCH_SIZE).drop
        WALLET_BALANCE_BATCH_SIZE).drop WALLET_BALANCE_BATCH_SIZE = [] := by
    apply List.drop_eq_nil_of_le
    rw [hl3]; simp [WALLET_BALANCE_BATCH_SIZE]
  rw [fetchTrace_ne_nil _ h1, fetchTrace_ne_nil _ h2, fetchTrace_ne_nil _ h3, h4]
  have t1 : (wallets.take WALLET_BALANCE_BATCH_SIZE).length = 5 := by
    simp [WALLET_BALANCE_BATCH_SIZE, h]
  have t2 : ((wallets.drop WALLET_BALANCE_BATCH_SIZE).take
      WALLET_BALANCE_BATCH_SIZE).length = 5 := by
    simp [WALLET_BALANCE_BATCH_SIZE, h]
  have t3 : (((wallets.drop WALLET_BALANCE_BATCH_SIZE).drop
      WALLET_BALANCE_BATCH_SIZE).take WALLET_BALANCE_BATCH_SIZE).length = 2 := by
    simp [WALLET_BALANCE_BATCH_SIZE, h]
  constructor
  · rw [fetchBatchSizes_chunk, fetchBatchSizes_chunk, fetchBatchSizes_chunk, t1, t2, t3]
    simp [fetchAndSaveWalletBatches, fetchBatchSizes]
  · rw [saveTxCount_chunk, saveTxCount_chunk, saveTxCount_chunk, t1, t2, t3]
    simp [fetchAndSaveWalletBatches, saveTxCount]

/-- Witness for batch_grouping on twelve concrete wallets. -/
theorem batch_grouping_witness :
    (List.range 12).length = 12 ∧
    (fetchBatchSizes (fetchAndSaveWalletBatches (List.range 12)) = [5, 5, 2] ∧
     saveTxCount (fetchAndSaveWalletBatches (List.range 12)) = 12) :=
  ⟨by decide, batch_grouping (List.range 12) (by decide)⟩

/-- C2 counterexample: for twelve wallets the loop performs twelve
saveBalances persistence transactions (one per returned wallet balance),
not three as claimed. -/
theorem batch_grouping_counterexample :
    saveTxCount (fetchAndSaveWalletBatches (List.range 12)) = 12 ∧
    saveTxCount (fetchAndSaveWalletBatches (List.range 12)) ≠ 3 := by
  have e : fetchAndSaveWalletBatches (List.range 12) =
      fetchAndSaveWalletBatches [0, 1, 2, 3, 4, 5, 6, 7, 8, 9, 10, 11] := by
    norm_num [List.range_succ]
  rw [e]
  simp [fetchAndSaveWalletBatches, WALLET_BALANCE_BATCH_SIZE, saveTxCount]
/-- A mapM over Option whose steps all succeed is the map of the pointwise
results. -/
theorem mapM_option_eq_map (f : β → Option γ) (g : β → γ) (l : List β)
    (h : ∀ x ∈ l, f x = some (g x)) : l.mapM f = some (l.map g) := by
  induction l with
  | nil => rfl
  | cons a t ih =>
    rw [List.mapM_cons, h a (by simp), ih (fun x hx => h x (by simp [hx]))]
    rfl

/-- A successful mapM over Option preserves the list length. -/
theorem mapM_option_length (f : β → Option γ) (l : List β) (l2 : List γ)
    (h : l.mapM f = some l2) : l2.length = l.length := by
  induction l generalizing l2 with
  | nil =>
    simp only [List.mapM_nil] at h
    cases h
    rfl
  | cons a t ih =>
    rw [List.mapM_cons] at h
    cases hfa : f a with
    | none => rw [hfa] at h; simp at h
    | some y =>
      rw [hfa] at h
      cases hmt : t.mapM f with
      | none => rw [hmt] at h; simp at h
      | some ys =>
        rw [hmt] at h
        simp at h
        cases h
        simp [ih ys hmt]

/-- getWalletsBalances returns exactly one WalletBalance per requested wallet
(the fact the per-wallet save loop of the tracker relies on). -/
theorem getWalletsBalances_length (wallets : List WalletM) (network : NetworkM)
    (results : List (Option Nat)) (out : List WalletBalanceM)
    (h : getWalletsBalances wallets network results = some out) :
    out.length = wallets.length := by
  unfold getWalletsBalances at h
  cases hws : wallets.mapM (fun w =>
      (standardizeAddress w.address).map (fun a => { w with address := a })) with
  | none => rw [hws] at h; simp at h
  | some ws =>
    rw [hws] at h
    simp only [Option.bind_eq_bind, Option.some_bind] at h
    have h1 := mapM_option_length _ _ _ h
    have h2 := mapM_option_length _ _ _ hws
    rw [h1, List.enum_length, h2]

/-- The in-range decoding step of getWalletsBalances agrees with resultAt. -/
theorem decodeD_eq_resultAt (results : List (Option Nat)) (k : Nat) (r : Option Nat)
    (h : results.get? k = some r) : (r.map toString).getD "0" = resultAt results k := by
  simp only [resultAt, h]
  cases r <;> simp

/-- The token-read reply index W + j * W + i is within an aligned reply list. -/
theorem index_bound (i j W T : Nat) (hi : i < W) (hj : j < T) :
    W + j * W + i < W + T * W := by
  have h3 : (j + 1) * W ≤ T * W := Nat.mul_le_mul_right W hj
  rw [Nat.succ_mul] at h3
  omega

/-- The per-wallet decoding of getWalletsBalances produces exactly the
index-aligned record predicted by the specification. -/
theorem decodeWallet_eq_spec (network : NetworkM) (results : List (Option Nat))
    (W i : Nat) (w : WalletM) (hi : i < W)
    (hr : results.length = W + network.tokens.length * W) :
    decodeWallet network results W i w = some (specWalletEntry network results W i w) := by
  have hi' : i < results.length := by omega
  have hinner : network.tokens.enum.mapM (fun jt => do
      let r ← results.get? (W + jt.1 * W + i)
      pure { address := jt.2.address, symbol := jt.2.symbol,
             balance := (r.map toString).getD "0",
             decimals := jt.2.decimals : TokenBalanceM }) =
      some (network.tokens.enum.map (fun jt =>
        { address := jt.2.address, symbol := jt.2.symbol,
          balance := resultAt results (W + jt.1 * W + i),
          decimals := jt.2.decimals : TokenBalanceM })) := by
    apply mapM_option_eq_map
    intro jt hmem
    have hj : network.tokens.get? jt.1 = some jt.2 := List.mem_enum_iff_get?.mp hmem
    have hjlt : jt.1 < network.tokens.length := by
      rcases List.get?_eq_some.mp hj with ⟨h, _⟩
      exact h
    have hk : W + jt.1 * W + i < results.length := by
      rw [hr]
      exact index_bound i jt.1 W network.tokens.length hi hjlt
    rw [List.get?_eq_get hk]
    simp only [Option.bind_eq_bind, Option.some_bind]
    rw [decodeD_eq_resultAt _ _ _ (List.get?_eq_get hk)]
    rfl
  unfold decodeWallet
  rw [List.get?_eq_get hi']
  simp only [Option.bind_eq_bind, Option.some_bind] at hinner ⊢
  rw [hinner]
  simp only [Option.bind_eq_bind, Option.some_bind]
  rw [decodeD_eq_resultAt _ _ _ (List.get?_eq_get hi')]
  rfl

/-- getWalletsBalances on an order-aligned reply list succeeds and equals the
index-aligned decoding specDecode worded by the specification. -/
theorem getWalletsBalances_eq_spec (wallets : List WalletM) (network : NetworkM)
    (results : List (Option Nat))
    (hw : ∀ w ∈ wallets, isAddrShape w.address = true)
    (hr : results.length = wallets.length + network.tokens.length * wallets.length) :
    getWalletsBalances wallets network results =
      some (specDecode wallets network results) := by
  have h1 : wallets.mapM (fun w =>
      (standardizeAddress w.address).map (fun a => { w with address := a })) =
      some (wallets.map (fun w => { w with address := strToLower w.address })) := by
    apply mapM_option_eq_map
    intro w hwmem
    simp [standardizeAddress, hw w hwmem]
  unfold getWalletsBalances
  rw [h1]
  simp only [Option.bind_eq_bind, Option.some_bind]
  have hlen : (wallets.map (fun w =>
      { w with address := strToLower w.address } : WalletM → WalletM)).length = wallets.length := by
    simp
  rw [hlen]
  have h2 : (wallets.map (fun w =>
      ({ w with address := strToLower w.address } : WalletM))).enum.mapM
      (fun iw => decodeWallet network results wallets.length iw.1 iw.2) =
      some ((wallets.map (fun w =>
        ({ w with address := strToLower w.address } : WalletM))).enum.map
        (fun iw => specWalletEntry network results wallets.length iw.1 iw.2)) := by
    apply mapM_option_eq_map
    intro iw hmem
    have hg : (wallets.map (fun w =>
        ({ w with address := strToLower w.address } : WalletM))).get? iw.1 = some iw.2 :=
      List.mem_enum_iff_get?.mp hmem
    have hilt : iw.1 < wallets.length := by
      rcases List.get?_eq_some.mp hg with ⟨h, _⟩
      simpa using h
    exact decodeWallet_eq_spec network results wallets.length iw.1 iw.2 hilt hr
  rw [h2]
  congr 1
  rw [List.enum_map, List.map_map, specDecode]
  apply List.map_congr_left
  intro iw hmem
  rfl

/-- Length of the token-by-wallet call block: one call per (token, wallet). -/
theorem flatMap_map_length (tokens : List TokenM) (ws : List String)
    (g : TokenM → String → MCall) :
    (tokens.flatMap (fun t => ws.map (g t))).length = tokens.length * ws.length := by
  induction tokens with
  | nil => simp
  | cons t rest ih => simp [List.flatMap_cons, ih, Nat.succ_mul, Nat.add_comm]

/-- The multicall request list has one native read per wallet plus one token
read per (token, wallet) pair. -/
theorem buildCalls_length (ws : List String) (tokens : List TokenM) :
    (buildCalls ws tokens).length = ws.length + tokens.length * ws.length := by
  rw [buildCalls, List.length_append, List.length_map, flatMap_map_length]

/-- Position i of the request list is the native-balance read of wallet i. -/
theorem buildCalls_get_native (ws : List String) (tokens : List TokenM)
    (i : Nat) (hi : i < ws.length) :
    (buildCalls ws tokens).get? i =
      some (MCall.getEthBalance MULTICALL3_ADDRESS (ws.get ⟨i, hi⟩)) := by
  rw [buildCalls, List.get?_eq_getElem?, List.getElem?_append_left (by simp [hi])]
  simp [List.getElem?_map, List.getElem?_eq_getElem hi]

/-- Position j * W + i of the token-call block is the balanceOf of token j for
wallet i. -/
theorem flatMap_token_get (tokens : List TokenM) (ws : List String) (j i : Nat)
    (hj : j < tokens.length) (hi : i < ws.length) :
    (tokens.flatMap (fun t => ws.map (fun a => MCall.balanceOf t.address a))).get?
        (j * ws.length + i) =
      some (MCall.balanceOf (tokens.get ⟨j, hj⟩).address (ws.get ⟨i, hi⟩)) := by
  induction tokens generalizing j with
  | nil => simp at hj
  | cons t rest ih =>
    rw [List.flatMap_cons]
    cases j with
    | zero =>
      rw [List.get?_eq_getElem?, List.getElem?_append_left (by simp [hi])]
      simp [List.getElem?_map, List.getElem?_eq_getElem hi]
    | succ j2 =>
      have hlen : (ws.map (fun a => MCall.balanceOf t.address a)).length ≤
          (j2 + 1) * ws.length + i := by
        simp [Nat.succ_mul]
        omega
      rw [List.get?_eq_getElem?, List.getElem?_append_right hlen]
      have hidx : (j2 + 1) * ws.length + i -
          (ws.map (fun a => MCall.balanceOf t.address a)).length = j2 * ws.length + i := by
        simp [Nat.succ_mul]
        omega
      rw [hidx, ← List.get?_eq_getElem?]
      have hj2 : j2 < rest.length := by simpa using hj
      rw [ih j2 hj2]
      rfl

/-- Position W + j * W + i of the request list is the balanceOf of token j for
wallet i. -/
theorem buildCalls_get_token (ws : List String) (tokens : List TokenM) (j i : Nat)
    (hj : j < tokens.length) (hi : i < ws.length) :
    (buildCalls ws tokens).get? (ws.length + j * ws.length + i) =
      some (MCall.balanceOf (tokens.get ⟨j, hj⟩).address (ws.get ⟨i, hi⟩)) := by
  rw [buildCalls, List.get?_eq_getElem?]
  have hlen : (ws.map (fun a => MCall.getEthBalance MULTICALL3_ADDRESS a)).length ≤
      ws.length + j * ws.length + i := by simp; omega
  rw [List.getElem?_append_right hlen]
  have hidx : ws.length + j * ws.length + i -
      (ws.map (fun a => MCall.getEthBalance MULTICALL3_ADDRESS a)).length =
      j * ws.length + i := by simp; omega
  rw [hidx, ← List.get?_eq_getElem?]
  exact flatMap_token_get tokens ws j i hj hi

/-- Entry i of the specification decoding, for a wallet index in range. -/
theorem specDecode_get (wallets : List WalletM) (network : NetworkM)
    (results : List (Option Nat)) (i : Nat) (hi : i < wallets.length) :
    (specDecode wallets network results).get? i =
      some (specWalletEntry network results wallets.length i
        { wallets.get ⟨i, hi⟩ with address := strToLower (wallets.get ⟨i, hi⟩).address }) := by
  rw [specDecode, List.get?_eq_getElem?, List.getElem?_map, List.getElem?_enum]
  have : wallets[i]? = some (wallets.get ⟨i, hi⟩) := by
    rw [← List.get?_eq_getElem?]
    exact List.get?_eq_get hi
  rw [this]
  rfl

/-- Token j of a specification wallet entry carries the balance decoded from
reply index W + j * W + i. -/
theorem specWalletEntry_tokens_get (network : NetworkM) (results : List (Option Nat))
    (W i : Nat) (w : WalletM) (j : Nat) (hj : j < network.tokens.length) :
    (specWalletEntry network results W i w).tokens.get? j =
      some { address := (network.tokens.get ⟨j, hj⟩).address,
             symbol := (network.tokens.get ⟨j, hj⟩).symbol,
             balance := resultAt results (W + j * W + i),
             decimals := (network.tokens.get ⟨j, hj⟩).decimals } := by
  rw [specWalletEntry]
  rw [List.get?_eq_getElem?, List.getElem?_map, List.getElem?_enum]
  have h5 : network.tokens[j]? = some (network.tokens.get ⟨j, hj⟩) := by
    rw [← List.get?_eq_getElem?]
    exact List.get?_eq_get hj
  rw [h5]
  rfl

/-- C7: for every wallet batch and network, getWalletsBalances corresponds to
one multi-read whose request list is, in order, one native-balance read per
wallet followed by one token-balance read per (token, wallet) pair grouped by
token then wallet, and it decodes the order-aligned replies so that wallet i
takes its native balance from reply index i and its balance of token j from
reply index W + j * W + i, where W is the number of wallets. -/
theorem multicall_alignment (wallets : List WalletM) (network : NetworkM)
    (results : List (Option Nat)) (i j : Nat)
    (hw : ∀ w ∈ wallets, isAddrShape w.address = true)
    (hr : results.length = wallets.length + network.tokens.length * wallets.length)
    (hi : i < wallets.length) (hj : j < network.tokens.length) :
    ∃ out, getWalletsBalances wallets network results = some out ∧
      out.length = wallets.length ∧
      (buildCalls (wallets.map (fun w => strToLower w.address)) network.tokens).length =
        results.length ∧
      (buildCalls (wallets.map (fun w => strToLower w.address)) network.tokens).get? i =
        some (MCall.getEthBalance MULTICALL3_ADDRESS
          (strToLower (wallets.get ⟨i, hi⟩).address)) ∧
      (buildCalls (wallets.map (fun w => strToLower w.address)) network.tokens).get?
          (wallets.length + j * wallets.length + i) =
        some (MCall.balanceOf (network.tokens.get ⟨j, hj⟩).address
          (strToLower (wallets.get ⟨i, hi⟩).address)) ∧
      (out.get? i).map WalletBalanceM.native_balance = some (resultAt results i) ∧
      ((out.get? i).bind (fun wb => wb.tokens.get? j)).map TokenBalanceM.balance =
        some (resultAt results (wallets.length + j * wallets.length + i)) := by
  refine ⟨specDecode wallets network results,
    getWalletsBalances_eq_spec wallets network results hw hr, ?_, ?_, ?_, ?_, ?_, ?_⟩
  · simp [specDecode, List.enum_length]
  · rw [buildCalls_length]
    simp [hr]
  · have hi2 : i < (wallets.map (fun w => strToLower w.address)).length := by simpa using hi
    rw [buildCalls_get_native _ network.tokens i hi2]
    congr 2
    simp [List.get_eq_getElem, List.getElem_map]
  · have hi2 : i < (wallets.map (fun w => strToLower w.address)).length := by simpa using hi
    have h4 := buildCalls_get_token (wallets.map (fun w => strToLower w.address))
      network.tokens j i hj hi2
    simp only [List.length_map, List.get_eq_getElem, List.getElem_map] at h4
    simpa [List.get_eq_getElem, List.getElem_map] using h4
  · rw [specDecode_get wallets network results i hi]
    rfl
  · rw [specDecode_get wallets network results i hi]
    simp only [Option.some_bind, Option.bind_eq_bind]
    rw [specWalletEntry_tokens_get network results wallets.length i _ j hj]
    rfl

/-- An absent reply decodes to the balance string 0. -/
theorem resultAt_absent (results : List (Option Nat)) (k : Nat)
    (h : results.get? k = some none) : resultAt results k = "0" := by
  unfold resultAt
  rw [h]

/-- C8: a position of the multi-read reply list whose result is missing or
reverted (an absent value) makes getWalletsBalances record the corresponding
native or token balance as the string 0 instead of raising an error: the call
still succeeds and the decoded balance at that position is 0. -/
theorem missing_result_defaults_zero (wallets : List WalletM) (network : NetworkM)
    (results : List (Option Nat)) (i j : Nat)
    (hw : ∀ w ∈ wallets, isAddrShape w.address = true)
    (hr : results.length = wallets.length + network.tokens.length * wallets.length)
    (hi : i < wallets.length) (hj : j < network.tokens.length) :
    ∃ out, getWalletsBalances wallets network results = some out ∧
      (results.get? i = some none →
        (out.get? i).map WalletBalanceM.native_balance = some "0") ∧
      (results.get? (wallets.length + j * wallets.length + i) = some none →
        ((out.get? i).bind (fun wb => wb.tokens.get? j)).map TokenBalanceM.balance =
          some "0") := by
  refine ⟨specDecode wallets network results,
    getWalletsBalances_eq_spec wallets network results hw hr, ?_, ?_⟩
  · intro habs
    rw [specDecode_get wallets network results i hi]
    simp only [specWalletEntry]
    rw [resultAt_absent results i habs]
    rfl
  · intro habs
    rw [specDecode_get wallets network results i hi]
    simp only [Option.some_bind, Option.bind_eq_bind]
    rw [specWalletEntry_tokens_get network results wallets.length i _ j hj,
      resultAt_absent results _ habs]
    rfl

/-- Witness for multicall_alignment: one wallet, one token, replies 7 and 9. -/
theorem multicall_alignment_witness :
    (∀ w ∈ [({ address := "0xaaaaaaaaaaaaaaaaaaaaaaaaaaaaaaaaaaaaaaaa",
               label := none } : WalletM)], isAddrShape w.address = true) ∧
    ([some 7, some 9] : List (Option Nat)).length =
      [({ address := "0xaaaaaaaaaaaaaaaaaaaaaaaaaaaaaaaaaaaaaaaa",
          label := none } : WalletM)].length +
      [({ address := "0xbbbbbbbbbbbbbbbbbbbbbbbbbbbbbbbbbbbbbbbb", symbol := "TKN",
          decimals := 18 } : TokenM)].length * 1 ∧
    (∃ out, getWalletsBalances
        [{ address := "0xaaaaaaaaaaaaaaaaaaaaaaaaaaaaaaaaaaaaaaaa", label := none }]
        { id := 1, name := "Ethereum", native_token := { symbol := "ETH", decimals := 18 },
          tokens := [{ address := "0xbbbbbbbbbbbbbbbbbbbbbbbbbbbbbbbbbbbbbbbb",
                       symbol := "TKN", decimals := 18 }] }
        [some 7, some 9] = some out ∧
      out.length = 1 ∧
      (buildCalls ["0xaaaaaaaaaaaaaaaaaaaaaaaaaaaaaaaaaaaaaaaa"]
          [{ address := "0xbbbbbbbbbbbbbbbbbbbbbbbbbbbbbbbbbbbbbbbb",
             symbol := "TKN", decimals := 18 }]).length = 2 ∧
      (buildCalls ["0xaaaaaaaaaaaaaaaaaaaaaaaaaaaaaaaaaaaaaaaa"]
          [{ address := "0xbbbbbbbbbbbbbbbbbbbbbbbbbbbbbbbbbbbbbbbb",
             symbol := "TKN", decimals := 18 }]).get? 0 =
        some (MCall.getEthBalance MULTICALL3_ADDRESS
          "0xaaaaaaaaaaaaaaaaaaaaaaaaaaaaaaaaaaaaaaaa") ∧
      (buildCalls ["0xaaaaaaaaaaaaaaaaaaaaaaaaaaaaaaaaaaaaaaaa"]
          [{ address := "0xbbbbbbbbbbbbbbbbbbbbbbbbbbbbbbbbbbbbbbbb",
             symbol := "TKN", decimals := 18 }]).get? 1 =
        some (MCall.balanceOf "0xbbbbbbbbbbbbbbbbbbbbbbbbbbbbbbbbbbbbbbbb"
          "0xaaaaaaaaaaaaaaaaaaaaaaaaaaaaaaaaaaaaaaaa") ∧
      (out.get? 0).map WalletBalanceM.native_balance = some (resultAt [some 7, some 9] 0) ∧
      ((out.get? 0).bind (fun wb => wb.tokens.get? 0)).map TokenBalanceM.balance =
        some (resultAt [some 7, some 9] 1)) := by
  refine ⟨by decide, by decide, ?_⟩
  have h := multicall_alignment
    [{ address := "0xaaaaaaaaaaaaaaaaaaaaaaaaaaaaaaaaaaaaaaaa", label := none }]
    { id := 1, name := "Ethereum", native_token := { symbol := "ETH", decimals := 18 },
      tokens := [{ address := "0xbbbbbbbbbbbbbbbbbbbbbbbbbbbbbbbbbbbbbbbb",
                   symbol := "TKN", decimals := 18 }] }
    [some 7, some 9] 0 0 (by decide) (by decide) (by decide) (by decide)
  exact h

/-- Witness for missing_result_defaults_zero: both replies absent. -/
theorem missing_result_defaults_zero_witness :
    (∀ w ∈ [({ address := "0xcccccccccccccccccccccccccccccccccccccccc",
               label := none } : WalletM)], isAddrShape w.address = true) ∧
    ([none, none] : List (Option Nat)).length = 1 + 1 * 1 ∧
    (∃ out, getWalletsBalances
        [{ address := "0xcccccccccccccccccccccccccccccccccccccccc", label := none }]
        { id := 137, name := "Polygon", native_token := { symbol := "POL", decimals := 18 },
          tokens := [{ address := "0xdddddddddddddddddddddddddddddddddddddddd",
                       symbol := "TKD", decimals := 6 }] }
        [none, none] = some out ∧
      ((([none, none] : List (Option Nat)).get? 0 = some none →
        (out.get? 0).map WalletBalanceM.native_balance = some "0") ∧
       (([none, none] : List (Option Nat)).get? (1 + 0 * 1 + 0) = some none →
        ((out.get? 0).bind (fun wb => wb.tokens.get? 0)).map TokenBalanceM.balance =
          some "0"))) := by
  refine ⟨by decide, by decide, ?_⟩
  have h := missing_result_defaults_zero
    [{ address := "0xcccccccccccccccccccccccccccccccccccccccc", label := none }]
    { id := 137, name := "Polygon", native_token := { symbol := "POL", decimals := 18 },
      tokens := [{ address := "0xdddddddddddddddddddddddddddddddddddddddd",
                   symbol := "TKD", decimals := 6 }] }
    [none, none] 0 0 (by decide) (by decide) (by decide) (by decide)
  obtain ⟨out, h1, h2, h3⟩ := h
  exact ⟨out, h1, h2, h3⟩

/-- A successful block read is in range and returns the chain timestamp. -/
theorem getBlock_some (c : Chain) (b t : Int) (h : getBlock c b = some t) :
    0 ≤ b ∧ b ≤ (c.current : Int) ∧ t = c.ts b.toNat := by
  unfold getBlock at h
  split at h
  · rename_i hcond
    obtain rfl := Option.some.inj h
    exact ⟨hcond.1, hcond.2, rfl⟩
  · cases h

/-- Reading the latest block always succeeds. -/
theorem getBlock_current (c : Chain) :
    getBlock c (c.current : Int) = some (c.ts c.current) := by
  unfold getBlock
  rw [if_pos ⟨by positivity, le_refl _⟩]
  simp

/-- The backward walk lands on a block with timestamp at or before the target,
or on block 0. -/
theorem walkBack_le (c : Chain) (T : Int) (b : Nat) (bTs : Int)
    (b2 : Nat) (bt2 : Int) (hb : bTs = c.ts b)
    (h : walkBack c T b bTs = some (b2, bt2)) : bt2 ≤ T ∨ bt2 = c.ts 0 := by
  induction b generalizing bTs with
  | zero =>
    unfold walkBack at h
    obtain ⟨rfl, rfl⟩ := Prod.mk.injEq _ _ _ _ ▸ Option.some.inj h
    right
    exact hb
  | succ b ih =>
    unfold walkBack at h
    split at h
    · cases hg : getBlock c (b : Int) with
      | none => rw [hg] at h; cases h
      | some t =>
        rw [hg] at h
        obtain ⟨_, _, ht⟩ := getBlock_some c _ _ hg
        exact ih t (by simpa using ht) h
    · rename_i hnot
      obtain ⟨rfl, rfl⟩ := Prod.mk.injEq _ _ _ _ ▸ Option.some.inj h
      left
      omega

/-- The linear search preserves the invariant that the tracked last block at
or before the target indeed has timestamp at or before the target. -/
theorem linearSearch_lastBefore (c : Chain) (T dir : Int) (fuel : Nat)
    (st st2 : SearchState) (h : linearSearch c T dir fuel st = some st2)
    (hlb : st.lastBeforeTs ≤ T) : st2.lastBeforeTs ≤ T := by
  induction fuel generalizing st with
  | zero =>
    unfold linearSearch at h
    obtain rfl := Option.some.inj h
    exact hlb
  | succ fuel ih =>
    unfold linearSearch at h
    cases hg : getBlock c (st.cur + dir) with
    | none => rw [hg] at h; cases h
    | some bTs =>
      rw [hg] at h
      dsimp only at h
      by_cases hle : bTs ≤ T
      · rw [if_pos hle] at h
        split at h
        · split at h
          · obtain rfl := Option.some.inj h
            exact hle
          · exact ih _ h hle
        · obtain rfl := Option.some.inj h
          exact hle
      · rw [if_neg hle] at h
        split at h
        · split at h
          · obtain rfl := Option.some.inj h
            exact hlb
          · exact ih _ h hlb
        · obtain rfl := Option.some.inj h
          exact hlb

/-- C1: monotonic block resolution. If the target timestamp T is at most the
latest block timestamp and some block of the search window has timestamp at
most T (block 0, the far end of the backward-walk window, suffices: its
timestamp is at most T), then whenever findBlockNumberForTimestamp returns a
block, that block timestamp is at most T: resolution never returns a block
strictly after T under that condition. -/
theorem monotonic_block_resolution (c : Chain) (T : Int) (networkId : Nat)
    (b bt : Int) (h0 : c.ts 0 ≤ T) (hc : T ≤ c.ts c.current)
    (hr : findBlockNumberForTimestamp c T networkId = some (b, bt)) :
    bt ≤ T := by
  unfold findBlockNumberForTimestamp at hr
  rw [getBlock_current c] at hr
  dsimp only at hr
  rw [if_neg (not_lt.mpr hc)] at hr
  cases hest : getBlock c ((c.current : Int) -
      ((c.ts c.current - T) * 1000).fdiv ((NETWORK_BLOCK_TIMES networkId).getD DEFAULT_BLOCK_TIME)) with
  | none => rw [hest] at hr; cases hr
  | some estTs =>
    rw [hest] at hr
    dsimp only at hr
    obtain ⟨hge, hle, hts⟩ := getBlock_some c _ _ hest
    by_cases hgt : T < estTs
    · rw [if_pos hgt] at hr
      cases hw : walkBack c T (((c.current : Int) -
          ((c.ts c.current - T) * 1000).fdiv
            ((NETWORK_BLOCK_TIMES networkId).getD DEFAULT_BLOCK_TIME)).toNat) estTs with
      | none => rw [hw] at hr; cases hr
      | some p =>
        rw [hw] at hr
        obtain ⟨b2, bt2⟩ := p
        obtain ⟨rfl, rfl⟩ := Prod.mk.injEq _ _ _ _ ▸ Option.some.inj hr
        rcases walkBack_le c T _ estTs b2 bt2 hts hw with h | h
        · exact h
        · rw [h]
          exact h0
    · rw [if_neg hgt] at hr
      split at hr
      · obtain ⟨rfl, rfl⟩ := Prod.mk.injEq _ _ _ _ ▸ Option.some.inj hr
        omega
      · cases hls : linearSearch c T 1 100
            ⟨(c.current : Int) -
              ((c.ts c.current - T) * 1000).fdiv
                ((NETWORK_BLOCK_TIMES networkId).getD DEFAULT_BLOCK_TIME),
             (c.current : Int) -
              ((c.ts c.current - T) * 1000).fdiv
                ((NETWORK_BLOCK_TIMES networkId).getD DEFAULT_BLOCK_TIME),
             estTs - T,
             (c.current : Int) -
              ((c.ts c.current - T) * 1000).fdiv
                ((NETWORK_BLOCK_TIMES networkId).getD DEFAULT_BLOCK_TIME),
             estTs⟩ with
        | none => rw [hls] at hr; cases hr
        | some st =>
          rw [hls] at hr
          dsimp only at hr
          cases hfin : getBlock c st.closest with
          | none => rw [hfin] at hr; cases hr
          | some finalTs =>
            rw [hfin] at hr
            dsimp only at hr
            have hlbst : st.lastBeforeTs ≤ T :=
              linearSearch_lastBefore c T _ 100 _ st hls (by dsimp only; omega)
            by_cases hfgt : T < finalTs
            · rw [if_pos hfgt] at hr
              obtain ⟨rfl, rfl⟩ := Prod.mk.injEq _ _ _ _ ▸ Option.some.inj hr
              exact hlbst
            · rw [if_neg hfgt] at hr
              obtain ⟨rfl, rfl⟩ := Prod.mk.injEq _ _ _ _ ▸ Option.some.inj hr
              omega

/-- Witness for monotonic_block_resolution on a ten-block chain. -/
theorem monotonic_block_resolution_witness :
    (Chain.mk 10 (fun b => 100 + 10 * b)).ts 0 ≤ 150 ∧
    (150 : Int) ≤ (Chain.mk 10 (fun b => 100 + 10 * b)).ts 10 ∧
    findBlockNumberForTimestamp (Chain.mk 10 (fun b => 100 + 10 * b)) 150 999 =
      some (5, 150) ∧
    (150 : Int) ≤ 150 :=
  ⟨by decide, by decide, by decide,
    monotonic_block_resolution (Chain.mk 10 (fun b => 100 + 10 * b)) 150 999 5 150
      (by decide) (by decide) (by decide)⟩

/-- A block-mapping lookup right after saving the same key returns the saved
block number. -/
theorem dbGet_save (cache : MappingCache) (nid : Nat) (d : String) (bn bt : Int) :
    dbGetBlockNumberForDate (saveBlockMapping cache nid d bn bt) nid d = some bn := by
  unfold dbGetBlockNumberForDate saveBlockMapping
  split
  · rename_i hany
    rw [List.find?_map]
    have hfind : List.find? ((fun e => decide (e.1 = (nid, d))) ∘ (fun e =>
        if e.1 = (nid, d) then ((nid, d), (bn, bt)) else e)) cache = none ∨
        ∃ e, List.find? ((fun e => decide (e.1 = (nid, d))) ∘ (fun e =>
          if e.1 = (nid, d) then ((nid, d), (bn, bt)) else e)) cache = some e := by
      cases List.find? _ cache with
      | none => exact Or.inl rfl
      | some e => exact Or.inr ⟨e, rfl⟩
    rcases hfind with hnone | ⟨e, hsome⟩
    · exfalso
      rw [List.find?_eq_none] at hnone
      rw [List.any_eq_true] at hany
      obtain ⟨x, hx, hpx⟩ := hany
      have := hnone x hx
      simp only [Function.comp] at this
      simp only [decide_eq_true_eq] at hpx this
      rw [if_pos hpx] at this
      exact this rfl
    · rw [hsome]
      have := List.find?_some hsome
      simp only [Function.comp, decide_eq_true_eq] at this
      by_cases he : e.1 = (nid, d)
      · simp [he]
      · rw [if_neg he] at this
        exact absurd this he
  · rw [List.find?_append]
    cases hfl : List.find? (fun e => decide (e.1 = (nid, d))) cache with
    | none => simp [List.find?]
    | some e =>
      exfalso
      rename_i hany
      have := List.find?_some hfl
      have hmem := List.mem_of_find?_eq_some hfl
      rw [Bool.not_eq_true, ← Bool.not_eq_true] at hany
      apply hany
      rw [List.any_eq_true]
      exact ⟨e, hmem, this⟩

/-- C5 (amended): when the target end-of-day timestamp is strictly greater
than the current block timestamp, the resolver returns the current block
(number and timestamp), and getBlockNumberForDate does persist a BlockMapping
for that date, mapping it to the current block, like any successful
resolution (findBlockNumberForTimestamp itself persists nothing). -/
theorem future_date_resolution (c : Chain) (cache : MappingCache) (nid : Nat) (d : DateM)
    (hmiss : dbGetBlockNumberForDate cache nid d.str = none)
    (hfut : c.ts c.current < targetTimestampOfDate d) :
    trackerGetBlockNumberForDate c cache nid d =
      ((c.current : Int),
        saveBlockMapping cache nid d.str (c.current : Int) (c.ts c.current), true) ∧
    dbGetBlockNumberForDate
        (saveBlockMapping cache nid d.str (c.current : Int) (c.ts c.current)) nid d.str =
      some (c.current : Int) := by
  have hfind : findBlockNumberForTimestamp c (targetTimestampOfDate d) nid =
      some ((c.current : Int), c.ts c.current) := by
    unfold findBlockNumberForTimestamp
    rw [getBlock_current]
    dsimp only
    rw [if_pos hfut]
  constructor
  · unfold trackerGetBlockNumberForDate
    rw [hmiss, hfind]
  · exact dbGet_save cache nid d.str (c.current : Int) (c.ts c.current)

/-- Witness for future_date_resolution: a five-block chain far behind the
requested date. -/
theorem future_date_resolution_witness :
    dbGetBlockNumberForDate [] 999 "1970-01-02" = none ∧
    (Chain.mk 5 (fun b => 100 + b)).ts 5 <
      targetTimestampOfDate (DateM.mk "1970-01-02" 86400000) ∧
    (trackerGetBlockNumberForDate (Chain.mk 5 (fun b => 100 + b)) [] 999
        (DateM.mk "1970-01-02" 86400000) =
      (5, saveBlockMapping [] 999 "1970-01-02" 5 105, true) ∧
    dbGetBlockNumberForDate (saveBlockMapping [] 999 "1970-01-02" 5 105) 999
        "1970-01-02" = some 5) :=
  ⟨by decide, by decide,
    future_date_resolution (Chain.mk 5 (fun b => 100 + b)) [] 999
      (DateM.mk "1970-01-02" 86400000) (by decide) (by decide)⟩

/-- C5 counterexample: resolving a date whose end-of-day timestamp exceeds the
current block timestamp stores a BlockMapping for the date (the lookup after
the call returns the current block instead of nothing), contradicting the
claim that no mapping is persisted for a future date. -/
theorem future_date_resolution_counterexample :
    (trackerGetBlockNumberForDate (Chain.mk 5 (fun b => 100 + b)) [] 999
        (DateM.mk "1970-01-02" 86400000)).1 = 5 ∧
    dbGetBlockNumberForDate
        (trackerGetBlockNumberForDate (Chain.mk 5 (fun b => 100 + b)) [] 999
          (DateM.mk "1970-01-02" 86400000)).2.1 999 "1970-01-02" = some 5 ∧
    dbGetBlockNumberForDate
        (trackerGetBlockNumberForDate (Chain.mk 5 (fun b => 100 + b)) [] 999
          (DateM.mk "1970-01-02" 86400000)).2.1 999 "1970-01-02" ≠ none := by
  refine ⟨by decide, by decide, ?_⟩
  intro h
  rw [show dbGetBlockNumberForDate
      (trackerGetBlockNumberForDate (Chain.mk 5 (fun b => 100 + b)) [] 999
        (DateM.mk "1970-01-02" 86400000)).2.1 999 "1970-01-02" = some 5 from by decide] at h
  cases h

/-- C9 (amended): after a successful first resolution whose block number is
nonzero, resolving the same (network, date) again returns the identical block
number from the cached BlockMapping, leaves the cache unchanged, and performs
zero chain calls. A cached block number 0 is falsy in the JavaScript cache
check and would be re-resolved. -/
theorem cache_idempotent_resolution (c : Chain) (cache : MappingCache) (nid : Nat)
    (d : DateM) (bn bt : Int)
    (hmiss : dbGetBlockNumberForDate cache nid d.str = none)
    (hres : findBlockNumberForTimestamp c (targetTimestampOfDate d) nid = some (bn, bt))
    (hnz : bn ≠ 0) :
    trackerGetBlockNumberForDate c cache nid d =
      (bn, saveBlockMapping cache nid d.str bn bt, true) ∧
    trackerGetBlockNumberForDate c (saveBlockMapping cache nid d.str bn bt) nid d =
      (bn, saveBlockMapping cache nid d.str bn bt, false) ∧
    dbGetBlockNumberForDate (saveBlockMapping cache nid d.str bn bt) nid d.str =
      some bn := by
  refine ⟨?_, ?_, dbGet_save cache nid d.str bn bt⟩
  · unfold trackerGetBlockNumberForDate
    rw [hmiss, hres]
  · unfold trackerGetBlockNumberForDate
    rw [dbGet_save]
    dsimp only
    rw [if_pos hnz]

/-- Witness for cache_idempotent_resolution: first resolution lands on block
9, the second call is served from the cache with no chain access. -/
theorem cache_idempotent_resolution_witness :
    dbGetBlockNumberForDate [] 999 "1970-01-02" = none ∧
    findBlockNumberForTimestamp (Chain.mk 10 (fun b => 172790 + b))
      (targetTimestampOfDate (DateM.mk "1970-01-02" 86400000)) 999 = some (9, 172799) ∧
    (9 : Int) ≠ 0 ∧
    (trackerGetBlockNumberForDate (Chain.mk 10 (fun b => 172790 + b)) [] 999
        (DateM.mk "1970-01-02" 86400000) =
      (9, saveBlockMapping [] 999 "1970-01-02" 9 172799, true) ∧
    trackerGetBlockNumberForDate (Chain.mk 10 (fun b => 172790 + b))
        (saveBlockMapping [] 999 "1970-01-02" 9 172799) 999
        (DateM.mk "1970-01-02" 86400000) =
      (9, saveBlockMapping [] 999 "1970-01-02" 9 172799, false) ∧
    dbGetBlockNumberForDate (saveBlockMapping [] 999 "1970-01-02" 9 172799) 999
        "1970-01-02" = some 9) :=
  ⟨by decide, by decide, by decide,
    cache_idempotent_resolution (Chain.mk 10 (fun b => 172790 + b)) [] 999
      (DateM.mk "1970-01-02" 86400000) 9 172799 (by decide) (by decide) (by decide)⟩

/-- C9 counterexample: a chain whose genesis timestamp is after the target
resolves to block 0; the cached mapping with block number 0 is treated as
absent by the falsy check if (existingBlock), so the second resolution of the
same (network, date) performs chain calls again instead of zero. -/
theorem cache_idempotence_counterexample :
    (trackerGetBlockNumberForDate (Chain.mk 10 (fun b => (b : Int))) [] 999
        (DateM.mk "1969-12-31" (-86400000))).1 = 0 ∧
    (trackerGetBlockNumberForDate (Chain.mk 10 (fun b => (b : Int)))
        (trackerGetBlockNumberForDate (Chain.mk 10 (fun b => (b : Int))) [] 999
          (DateM.mk "1969-12-31" (-86400000))).2.1 999
        (DateM.mk "1969-12-31" (-86400000))).1 = 0 ∧
    (trackerGetBlockNumberForDate (Chain.mk 10 (fun b => (b : Int)))
        (trackerGetBlockNumberForDate (Chain.mk 10 (fun b => (b : Int))) [] 999
          (DateM.mk "1969-12-31" (-86400000))).2.1 999
        (DateM.mk "1969-12-31" (-86400000))).2.2 = true := by
  decide

/-- The conflict-clause update leaves the key columns of a row unchanged. -/
theorem rowKey_update (x r : BalanceRowM) :
    rowKey { x with symbol := r.symbol, balance := r.balance,
                    block_number := r.block_number, timestamp := r.timestamp } =
      rowKey x := rfl

/-- The row rewriting done by an upsert never changes a row key. -/
theorem rowKey_upsertFun (x r : BalanceRowM) :
    rowKey (if rowKey x = rowKey r then
      { x with symbol := r.symbol, balance := r.balance,
               block_number := r.block_number, timestamp := r.timestamp }
      else x) = rowKey x := by
  split <;> rfl

/-- An upsert preserves the at-most-one-row-per-key invariant. -/
theorem upsert_distinct (s : BalanceStore) (r : BalanceRowM)
    (h : distinctKeys s) : distinctKeys (upsert s r) := by
  unfold upsert
  split
  · refine List.Pairwise.map _ ?_ h
    intro a b hab
    rw [rowKey_upsertFun a r, rowKey_upsertFun b r]
    exact hab
  · rename_i hany
    unfold distinctKeys
    rw [List.pairwise_append]
    refine ⟨h, by simp, ?_⟩
    intro a ha b hb
    simp only [List.mem_singleton] at hb
    subst hb
    intro hk
    apply hany
    rw [List.any_eq_true]
    exact ⟨a, ha, by simp [hk]⟩

/-- An upsert never deletes a key: every stored key survives. -/
theorem upsert_keys_sub (s : BalanceStore) (r x : BalanceRowM) (hx : x ∈ s) :
    ∃ y ∈ upsert s r, rowKey y = rowKey x := by
  unfold upsert
  split
  · exact ⟨_, List.mem_map_of_mem _ hx, rowKey_upsertFun x r⟩
  · exact ⟨x, List.mem_append_left _ hx, rfl⟩

/-- After an upsert of row r, every row at the key of r carries the symbol,
balance, block number and timestamp of r. -/
theorem upsert_key_vals (s : BalanceStore) (r : BalanceRowM) :
    ∀ y ∈ upsert s r, rowKey y = rowKey r →
      y.symbol = r.symbol ∧ y.balance = r.balance ∧
      y.block_number = r.block_number ∧ y.timestamp = r.timestamp := by
  unfold upsert
  split
  · intro y hy hk
    obtain ⟨x, hx, rfl⟩ := List.mem_map.mp hy
    by_cases hxk : rowKey x = rowKey r
    · rw [if_pos hxk]
      exact ⟨rfl, rfl, rfl, rfl⟩
    · rw [if_pos ?side]
      · exact ⟨rfl, rfl, rfl, rfl⟩
      · rw [rowKey_upsertFun x r] at hk
        exact absurd hk hxk
  · rename_i hany
    intro y hy hk
    rcases List.mem_append.mp hy with hys | hyr
    · exfalso
      apply hany
      rw [List.any_eq_true]
      exact ⟨y, hys, by simp [hk]⟩
    · simp only [List.mem_singleton] at hyr
      subst hyr
      exact ⟨rfl, rfl, rfl, rfl⟩

/-- After an upsert of row r, some row at the key of r exists. -/
theorem upsert_key_exists (s : BalanceStore) (r : BalanceRowM) :
    ∃ y ∈ upsert s r, rowKey y = rowKey r := by
  unfold upsert
  split
  · rename_i hany
    rw [List.any_eq_true] at hany
    obtain ⟨x, hx, hxk⟩ := hany
    simp only [decide_eq_true_eq] at hxk
    exact ⟨_, List.mem_map_of_mem _ hx, by rw [rowKey_upsertFun x r]; exact hxk⟩
  · exact ⟨r, List.mem_append_right _ (by simp), rfl⟩

/-- An upsert of a row with a different key leaves the rows at key k as they
were. -/
theorem upsert_other_preserved (s : BalanceStore) (r : BalanceRowM)
    (k : String × Nat × String × String) (P : BalanceRowM → Prop)
    (hne : rowKey r ≠ k)
    (hall : ∀ y ∈ s, rowKey y = k → P y) :
    ∀ y ∈ upsert s r, rowKey y = k → P y := by
  unfold upsert
  split
  · intro y hy hk
    obtain ⟨x, hx, rfl⟩ := List.mem_map.mp hy
    rw [rowKey_upsertFun x r] at hk
    by_cases hxk : rowKey x = rowKey r
    · exact absurd hk (by rw [hxk]; exact hne)
    · rw [if_neg hxk]
      exact hall x hx hk
  · intro y hy hk
    rcases List.mem_append.mp hy with hys | hyr
    · exact hall y hys hk
    · simp only [List.mem_singleton] at hyr
      subst hyr
      exact absurd hk hne

/-- An upsert preserves the existence of a row at any key. -/
theorem upsert_other_exists (s : BalanceStore) (r : BalanceRowM)
    (k : String × Nat × String × String)
    (hex : ∃ y ∈ s, rowKey y = k) :
    ∃ y ∈ upsert s r, rowKey y = k := by
  obtain ⟨x, hx, hxk⟩ := hex
  obtain ⟨y, hy, hyk⟩ := upsert_keys_sub s r x hx
  exact ⟨y, hy, hyk.trans hxk⟩

/-- Under the invariant, a key with at least one row has exactly one. -/
theorem distinct_count_one (s : BalanceStore) (k : String × Nat × String × String)
    (hd : distinctKeys s) (hex : ∃ y ∈ s, rowKey y = k) :
    (s.filter (fun y => decide (rowKey y = k))).length = 1 := by
  induction s with
  | nil => simp at hex
  | cons a t ih =>
    unfold distinctKeys at hd
    rw [List.pairwise_cons] at hd
    obtain ⟨hat, htd⟩ := hd
    by_cases hak : rowKey a = k
    · have hnone : t.filter (fun y => decide (rowKey y = k)) = [] := by
        rw [List.filter_eq_nil_iff]
        intro b hb
        simp only [decide_eq_true_eq]
        intro hbk
        exact hat b hb (by rw [hak, hbk])
      simp [List.filter_cons, hak, hnone]
    · obtain ⟨y, hy, hyk⟩ := hex
      rcases List.mem_cons.mp hy with rfl | hyt
      · exact absurd hyk hak
      · rw [List.filter_cons_of_neg (by simp [hak])]
        exact ih htd ⟨y, hyt, hyk⟩

/-- The token loop of saveBalances preserves the invariant. -/
theorem tokensFold_distinct (toks : List TokenBalanceM) (addr : String)
    (netId bn : Nat) (dateStr tsStr : String) (st t : BalanceStore)
    (hfold : toks.foldlM (fun st tok => do
        let tokenAddress ← standardizeAddress tok.address
        pure (upsert st
          { wallet_address := addr, network_id := netId,
            token_address := tokenAddress, symbol := tok.symbol,
            balance := tok.balance, block_number := bn, timestamp := tsStr,
            date := dateStr })) st = some t)
    (hd : distinctKeys st) : distinctKeys t := by
  induction toks generalizing st with
  | nil =>
    obtain rfl := Option.some.inj hfold
    exact hd
  | cons tok rest ih =>
    rw [List.foldlM_cons] at hfold
    cases hstd : standardizeAddress tok.address with
    | none => rw [hstd] at hfold; cases hfold
    | some ta =>
      rw [hstd] at hfold
      exact ih _ hfold (upsert_distinct st _ hd)

/-- The token loop of saveBalances never deletes a key. -/
theorem tokensFold_keys_sub (toks : List TokenBalanceM) (addr : String)
    (netId bn : Nat) (dateStr tsStr : String) (st t : BalanceStore)
    (hfold : toks.foldlM (fun st tok => do
        let tokenAddress ← standardizeAddress tok.address
        pure (upsert st
          { wallet_address := addr, network_id := netId,
            token_address := tokenAddress, symbol := tok.symbol,
            balance := tok.balance, block_number := bn, timestamp := tsStr,
            date := dateStr })) st = some t) :
    ∀ x ∈ st, ∃ y ∈ t, rowKey y = rowKey x := by
  induction toks generalizing st with
  | nil =>
    obtain rfl := Option.some.inj hfold
    exact fun x hx => ⟨x, hx, rfl⟩
  | cons tok rest ih =>
    rw [List.foldlM_cons] at hfold
    cases hstd : standardizeAddress tok.address with
    | none => rw [hstd] at hfold; cases hfold
    | some ta =>
      rw [hstd] at hfold
      intro x hx
      obtain ⟨y1, hy1, hk1⟩ := upsert_keys_sub st _ x hx
      obtain ⟨y, hy, hk⟩ := ih _ hfold y1 hy1
      exact ⟨y, hy, hk.trans hk1⟩

/-- The token loop of saveBalances leaves a key none of its token rows uses
exactly as it found it. -/
theorem tokensFold_key_preserved (toks : List TokenBalanceM) (addr : String)
    (netId bn : Nat) (dateStr tsStr : String) (st t : BalanceStore)
    (k : String × Nat × String × String) (P : BalanceRowM → Prop)
    (hfold : toks.foldlM (fun st tok => do
        let tokenAddress ← standardizeAddress tok.address
        pure (upsert st
          { wallet_address := addr, network_id := netId,
            token_address := tokenAddress, symbol := tok.symbol,
            balance := tok.balance, block_number := bn, timestamp := tsStr,
            date := dateStr })) st = some t)
    (hkeys : ∀ tok ∈ toks, ∀ ta, standardizeAddress tok.address = some ta →
      keyOf addr netId ta dateStr ≠ k)
    (hex : ∃ y ∈ st, rowKey y = k) (hall : ∀ y ∈ st, rowKey y = k → P y) :
    (∃ y ∈ t, rowKey y = k) ∧ (∀ y ∈ t, rowKey y = k → P y) := by
  induction toks generalizing st with
  | nil =>
    obtain rfl := Option.some.inj hfold
    exact ⟨hex, hall⟩
  | cons tok rest ih =>
    rw [List.foldlM_cons] at hfold
    cases hstd : standardizeAddress tok.address with
    | none => rw [hstd] at hfold; cases hfold
    | some ta =>
      rw [hstd] at hfold
      have hne : rowKey
          { wallet_address := addr, network_id := netId,
            token_address := ta, symbol := tok.symbol, balance := tok.balance,
            block_number := bn, timestamp := tsStr,
            date := dateStr : BalanceRowM } ≠ k :=
        hkeys tok (by simp) ta hstd
      exact ih _ hfold
        (fun tok2 h2 => hkeys tok2 (by simp [h2]))
        (upsert_other_exists st _ k hex)
        (upsert_other_preserved st _ k P hne hall)

/-- saveBalances preserves the at-most-one-row-per-key invariant. -/
theorem saveBalances_distinct (networks : List NetworkM) (s : BalanceStore)
    (wb : WalletBalanceM) (bn : Nat) (dateStr tsStr : String) (t : BalanceStore)
    (hd : distinctKeys s) (h : saveBalances networks s wb bn dateStr tsStr = some t) :
    distinctKeys t := by
  unfold saveBalances at h
  cases hfind : networks.find? (fun n => n.name == wb.network) with
  | none =>
    rw [hfind] at h
    obtain rfl := Option.some.inj h
    exact hd
  | some net =>
    rw [hfind] at h
    cases hstd : standardizeAddress wb.address with
    | none => rw [hstd] at h; cases h
    | some addr =>
      rw [hstd] at h
      dsimp only at h
      exact tokensFold_distinct wb.tokens addr net.id bn dateStr tsStr _ t h
        (upsert_distinct s _ hd)

/-- saveBalances never deletes a key. -/
theorem saveBalances_keys_sub (networks : List NetworkM) (s : BalanceStore)
    (wb : WalletBalanceM) (bn : Nat) (dateStr tsStr : String) (t : BalanceStore)
    (h : saveBalances networks s wb bn dateStr tsStr = some t) :
    ∀ x ∈ s, ∃ y ∈ t, rowKey y = rowKey x := by
  unfold saveBalances at h
  cases hfind : networks.find? (fun n => n.name == wb.network) with
  | none =>
    rw [hfind] at h
    obtain rfl := Option.some.inj h
    exact fun x hx => ⟨x, hx, rfl⟩
  | some net =>
    rw [hfind] at h
    cases hstd : standardizeAddress wb.address with
    | none => rw [hstd] at h; cases h
    | some addr =>
      rw [hstd] at h
      dsimp only at h
      intro x hx
      obtain ⟨y1, hy1, hk1⟩ := upsert_keys_sub s _ x hx
      obtain ⟨y, hy, hk⟩ :=
        tokensFold_keys_sub wb.tokens addr net.id bn dateStr tsStr _ t h y1 hy1
      exact ⟨y, hy, hk.trans hk1⟩

/-- A key whose every touching token row carries the same symbol and balance
keeps exactly those values (with the block number and timestamp of the write)
through the token loop of saveBalances. -/
theorem tokensFold_key_vals_stable (toks : List TokenBalanceM) (addr : String)
    (netId bn : Nat) (dateStr tsStr : String) (st t : BalanceStore)
    (k : String × Nat × String × String) (sym bal : String)
    (hfold : toks.foldlM (fun st tok => do
        let tokenAddress ← standardizeAddress tok.address
        pure (upsert st
          { wallet_address := addr, network_id := netId,
            token_address := tokenAddress, symbol := tok.symbol,
            balance := tok.balance, block_number := bn, timestamp := tsStr,
            date := dateStr })) st = some t)
    (htoks : ∀ tok ∈ toks, ∀ ta, standardizeAddress tok.address = some ta →
      keyOf addr netId ta dateStr = k → tok.symbol = sym ∧ tok.balance = bal)
    (hex : ∃ y ∈ st, rowKey y = k)
    (hall : ∀ y ∈ st, rowKey y = k → y.symbol = sym ∧ y.balance = bal ∧
      y.block_number = bn ∧ y.timestamp = tsStr) :
    (∃ y ∈ t, rowKey y = k) ∧
    (∀ y ∈ t, rowKey y = k → y.symbol = sym ∧ y.balance = bal ∧
      y.block_number = bn ∧ y.timestamp = tsStr) := by
  induction toks generalizing st with
  | nil =>
    obtain rfl := Option.some.inj hfold
    exact ⟨hex, hall⟩
  | cons tok rest ih =>
    rw [List.foldlM_cons] at hfold
    cases hstd : standardizeAddress tok.address with
    | none => rw [hstd] at hfold; cases hfold
    | some ta =>
      rw [hstd] at hfold
      by_cases hk : keyOf addr netId ta dateStr = k
      · obtain ⟨hsym, hbal⟩ := htoks tok (by simp) ta hstd hk
        refine ih _ hfold (fun tok2 h2 => htoks tok2 (by simp [h2])) ?_ ?_
        · obtain ⟨y, hy, hyk⟩ := upsert_key_exists st
            { wallet_address := addr, network_id := netId, token_address := ta,
              symbol := tok.symbol, balance := tok.balance, block_number := bn,
              timestamp := tsStr, date := dateStr }
          exact ⟨y, hy, hyk.trans hk⟩
        · intro y hy hyk
          obtain ⟨h1, h2, h3, h4⟩ := upsert_key_vals st
            { wallet_address := addr, network_id := netId, token_address := ta,
              symbol := tok.symbol, balance := tok.balance, block_number := bn,
              timestamp := tsStr, date := dateStr } y hy (hyk.trans hk.symm)
          exact ⟨h1.trans hsym, h2.trans hbal, h3, h4⟩
      · refine ih _ hfold (fun tok2 h2 => htoks tok2 (by simp [h2]))
          (upsert_other_exists st _ k hex)
          (upsert_other_preserved st _ k _ hk hall)

/-- After the token loop of saveBalances, the key of a token of the write
holds that token symbol and balance together with the block number and
timestamp of the write, whatever the starting store: the token own upsert
establishes the values and every later row at the same key (a duplicate
address in the same write) carries the same symbol and balance. -/
theorem tokensFold_token_final (toks : List TokenBalanceM) (addr : String)
    (netId bn : Nat) (dateStr tsStr : String) (st t : BalanceStore)
    (tok : TokenBalanceM) (ta : String)
    (hfold : toks.foldlM (fun st tok => do
        let tokenAddress ← standardizeAddress tok.address
        pure (upsert st
          { wallet_address := addr, network_id := netId,
            token_address := tokenAddress, symbol := tok.symbol,
            balance := tok.balance, block_number := bn, timestamp := tsStr,
            date := dateStr })) st = some t)
    (hmem : tok ∈ toks) (hstd : standardizeAddress tok.address = some ta)
    (huniq : ∀ tok2 ∈ toks, ∀ ta2, standardizeAddress tok2.address = some ta2 →
      keyOf addr netId ta2 dateStr = keyOf addr netId ta dateStr →
      tok2.symbol = tok.symbol ∧ tok2.balance = tok.balance) :
    (∃ y ∈ t, rowKey y = keyOf addr netId ta dateStr) ∧
    (∀ y ∈ t, rowKey y = keyOf addr netId ta dateStr →
      y.symbol = tok.symbol ∧ y.balance = tok.balance ∧
      y.block_number = bn ∧ y.timestamp = tsStr) := by
  induction toks generalizing st with
  | nil => simp at hmem
  | cons tok0 rest ih =>
    rw [List.foldlM_cons] at hfold
    cases hstd0 : standardizeAddress tok0.address with
    | none => rw [hstd0] at hfold; cases hfold
    | some ta0 =>
      rw [hstd0] at hfold
      by_cases hmem2 : tok ∈ rest
      · exact ih _ hfold hmem2 (fun tok2 h2 => huniq tok2 (by simp [h2]))
      · have htok0 : tok0 = tok := by
          rcases List.mem_cons.mp hmem with h | h
          · exact h.symm
          · exact absurd h hmem2
        subst htok0
        have hta0 : ta0 = ta := by
          rw [hstd0] at hstd
          exact Option.some.inj hstd
        subst hta0
        refine tokensFold_key_vals_stable rest addr netId bn dateStr tsStr _ t
          (keyOf addr netId ta0 dateStr) tok0.symbol tok0.balance hfold
          (fun tok2 h2 => huniq tok2 (by simp [h2])) ?_ ?_
        · obtain ⟨y, hy, hyk⟩ := upsert_key_exists st
            { wallet_address := addr, network_id := netId, token_address := ta0,
              symbol := tok0.symbol, balance := tok0.balance, block_number := bn,
              timestamp := tsStr, date := dateStr }
          exact ⟨y, hy, hyk⟩
        · intro y hy hyk
          exact upsert_key_vals st
            { wallet_address := addr, network_id := netId, token_address := ta0,
              symbol := tok0.symbol, balance := tok0.balance, block_number := bn,
              timestamp := tsStr, date := dateStr } y hy hyk

/-- C4: writing a snapshot twice via saveBalances with different values
leaves, for every key the second write touches, exactly one row holding the
symbol, balance, block number and timestamp of the second write: the
native-sentinel key carries the native symbol and balance, and the key of
each token of the write carries that token symbol and balance; no key is
ever deleted and at most one row per key exists after each write. The
hypothesis hs excludes a configured token aliasing the native sentinel
address (a later token row of the same write would overwrite the native key
again), and the inner hypothesis of the token conjunct asks that any
duplicate token address within the one write carries the same symbol and
balance, without which the single final value of the key is the last
duplicate. -/
theorem saveBalances_last_write_wins
    (networks : List NetworkM) (s t1 t2 : BalanceStore) (wb1 wb2 : WalletBalanceM)
    (bn1 bn2 : Nat) (dateStr ts1 ts2 : String) (net : NetworkM) (a2 : String)
    (hd : distinctKeys s)
    (h1 : saveBalances networks s wb1 bn1 dateStr ts1 = some t1)
    (h2 : saveBalances networks t1 wb2 bn2 dateStr ts2 = some t2)
    (hn : networks.find? (fun n => n.name == wb2.network) = some net)
    (ha : standardizeAddress wb2.address = some a2)
    (hs : ∀ tok ∈ wb2.tokens, ∀ ta, standardizeAddress tok.address = some ta →
      keyOf a2 net.id ta dateStr ≠ keyOf a2 net.id NATIVE_TOKEN_ADDRESS dateStr) :
    distinctKeys t1 ∧ distinctKeys t2 ∧
    (t2.filter (fun y =>
      decide (rowKey y = keyOf a2 net.id NATIVE_TOKEN_ADDRESS dateStr))).length = 1 ∧
    (∀ y ∈ t2, rowKey y = keyOf a2 net.id NATIVE_TOKEN_ADDRESS dateStr →
      y.symbol = net.native_token.symbol ∧ y.balance = wb2.native_balance ∧
      y.block_number = bn2 ∧ y.timestamp = ts2) ∧
    (∀ tok ∈ wb2.tokens, ∀ ta, standardizeAddress tok.address = some ta →
      (∀ tok2 ∈ wb2.tokens, ∀ ta2, standardizeAddress tok2.address = some ta2 →
        keyOf a2 net.id ta2 dateStr = keyOf a2 net.id ta dateStr →
        tok2.symbol = tok.symbol ∧ tok2.balance = tok.balance) →
      (t2.filter (fun y =>
        decide (rowKey y = keyOf a2 net.id ta dateStr))).length = 1 ∧
      (∀ y ∈ t2, rowKey y = keyOf a2 net.id ta dateStr →
        y.symbol = tok.symbol ∧ y.balance = tok.balance ∧
        y.block_number = bn2 ∧ y.timestamp = ts2)) ∧
    (∀ x ∈ s, ∃ y ∈ t2, rowKey y = rowKey x) ∧
    (∀ x ∈ t1, ∃ y ∈ t2, rowKey y = rowKey x) := by
  have hd1 : distinctKeys t1 :=
    saveBalances_distinct networks s wb1 bn1 dateStr ts1 t1 hd h1
  have hd2 : distinctKeys t2 :=
    saveBalances_distinct networks t1 wb2 bn2 dateStr ts2 t2 hd1 h2
  have hsub1 := saveBalances_keys_sub networks s wb1 bn1 dateStr ts1 t1 h1
  have hsub2 := saveBalances_keys_sub networks t1 wb2 bn2 dateStr ts2 t2 h2
  unfold saveBalances at h2
  rw [hn] at h2
  rw [ha] at h2
  dsimp only at h2
  have hkey : rowKey
      ({ wallet_address := a2, network_id := net.id,
         token_address := NATIVE_TOKEN_ADDRESS, symbol := net.native_token.symbol,
         balance := wb2.native_balance, block_number := bn2, timestamp := ts2,
         date := dateStr } : BalanceRowM) =
      keyOf a2 net.id NATIVE_TOKEN_ADDRESS dateStr := rfl
  have hbase_ex : ∃ y ∈ upsert t1
      ({ wallet_address := a2, network_id := net.id,
         token_address := NATIVE_TOKEN_ADDRESS, symbol := net.native_token.symbol,
         balance := wb2.native_balance, block_number := bn2, timestamp := ts2,
         date := dateStr } : BalanceRowM),
      rowKey y = keyOf a2 net.id NATIVE_TOKEN_ADDRESS dateStr := by
    obtain ⟨y, hy, hk⟩ := upsert_key_exists t1 _
    exact ⟨y, hy, hk.trans hkey⟩
  have hbase_all : ∀ y ∈ upsert t1
      ({ wallet_address := a2, network_id := net.id,
         token_address := NATIVE_TOKEN_ADDRESS, symbol := net.native_token.symbol,
         balance := wb2.native_balance, block_number := bn2, timestamp := ts2,
         date := dateStr } : BalanceRowM),
      rowKey y = keyOf a2 net.id NATIVE_TOKEN_ADDRESS dateStr →
      y.symbol = net.native_token.symbol ∧ y.balance = wb2.native_balance ∧
      y.block_number = bn2 ∧ y.timestamp = ts2 := by
    intro y hy hk
    exact upsert_key_vals t1 _ y hy (hk.trans hkey.symm)
  have hpres := tokensFold_key_preserved wb2.tokens a2 net.id bn2 dateStr ts2 _ t2
    (keyOf a2 net.id NATIVE_TOKEN_ADDRESS dateStr)
    (fun y => y.symbol = net.native_token.symbol ∧ y.balance = wb2.native_balance ∧
      y.block_number = bn2 ∧ y.timestamp = ts2)
    h2 hs hbase_ex hbase_all
  refine ⟨hd1, hd2, distinct_count_one t2 _ hd2 hpres.1, hpres.2, ?_, ?_, hsub2⟩
  · intro tok hmem ta hta huniq
    have hfin := tokensFold_token_final wb2.tokens a2 net.id bn2 dateStr ts2 _ t2
      tok ta h2 hmem hta huniq
    exact ⟨distinct_count_one t2 _ hd2 hfin.1, hfin.2⟩
  · intro x hx
    obtain ⟨y1, hy1, hk1⟩ := hsub1 x hx
    obtain ⟨y, hy, hk⟩ := hsub2 y1 hy1
    exact ⟨y, hy, hk.trans hk1⟩

/-- Witness for saveBalances_last_write_wins: the same wallet written twice
with different balances, blocks and timestamps; both the native key and the
USDC token key end holding exactly one row with the second write values. -/
theorem saveBalances_last_write_wins_witness :
    distinctKeys [] ∧
    saveBalances
      [{ id := 1, name := "Ethereum", native_token := { symbol := "ETH", decimals := 18 },
         tokens := [] }] []
      { address := "0xaaaaaaaaaaaaaaaaaaaaaaaaaaaaaaaaaaaaaaaa", label := none,
        network := "Ethereum", network_id := 1, native_balance := "1",
        tokens := [{ address := "0xbbbbbbbbbbbbbbbbbbbbbbbbbbbbbbbbbbbbbbbb",
                     symbol := "USDC", balance := "5", decimals := 6 }],
        date := "" } 1 "2024-01-01" "T1" =
      some
        [{ wallet_address := "0xaaaaaaaaaaaaaaaaaaaaaaaaaaaaaaaaaaaaaaaa",
           network_id := 1, token_address := NATIVE_TOKEN_ADDRESS, symbol := "ETH",
           balance := "1", block_number := 1, timestamp := "T1", date := "2024-01-01" },
         { wallet_address := "0xaaaaaaaaaaaaaaaaaaaaaaaaaaaaaaaaaaaaaaaa",
           network_id := 1, token_address := "0xbbbbbbbbbbbbbbbbbbbbbbbbbbbbbbbbbbbbbbbb",
           symbol := "USDC", balance := "5", block_number := 1, timestamp := "T1",
           date := "2024-01-01" }] ∧
    saveBalances
      [{ id := 1, name := "Ethereum", native_token := { symbol := "ETH", decimals := 18 },
         tokens := [] }]
      [{ wallet_address := "0xaaaaaaaaaaaaaaaaaaaaaaaaaaaaaaaaaaaaaaaa",
         network_id := 1, token_address := NATIVE_TOKEN_ADDRESS, symbol := "ETH",
         balance := "1", block_number := 1, timestamp := "T1", date := "2024-01-01" },
       { wallet_address := "0xaaaaaaaaaaaaaaaaaaaaaaaaaaaaaaaaaaaaaaaa",
         network_id := 1, token_address := "0xbbbbbbbbbbbbbbbbbbbbbbbbbbbbbbbbbbbbbbbb",
         symbol := "USDC", balance := "5", block_number := 1, timestamp := "T1",
         date := "2024-01-01" }]
      { address := "0xaaaaaaaaaaaaaaaaaaaaaaaaaaaaaaaaaaaaaaaa", label := none,
        network := "Ethereum", network_id := 1, native_balance := "2",
        tokens := [{ address := "0xbbbbbbbbbbbbbbbbbbbbbbbbbbbbbbbbbbbbbbbb",
                     symbol := "USDC", balance := "7", decimals := 6 }],
        date := "" } 2 "2024-01-01" "T2" =
      some
        [{ wallet_address := "0xaaaaaaaaaaaaaaaaaaaaaaaaaaaaaaaaaaaaaaaa",
           network_id := 1, token_address := NATIVE_TOKEN_ADDRESS, symbol := "ETH",
           balance := "2", block_number := 2, timestamp := "T2", date := "2024-01-01" },
         { wallet_address := "0xaaaaaaaaaaaaaaaaaaaaaaaaaaaaaaaaaaaaaaaa",
           network_id := 1, token_address := "0xbbbbbbbbbbbbbbbbbbbbbbbbbbbbbbbbbbbbbbbb",
           symbol := "USDC", balance := "7", block_number := 2, timestamp := "T2",
           date := "2024-01-01" }] ∧
    ([{ wallet_address := "0xaaaaaaaaaaaaaaaaaaaaaaaaaaaaaaaaaaaaaaaa",
        network_id := 1, token_address := NATIVE_TOKEN_ADDRESS, symbol := "ETH",
        balance := "2", block_number := 2, timestamp := "T2", date := "2024-01-01" },
      { wallet_address := "0xaaaaaaaaaaaaaaaaaaaaaaaaaaaaaaaaaaaaaaaa",
        network_id := 1, token_address := "0xbbbbbbbbbbbbbbbbbbbbbbbbbbbbbbbbbbbbbbbb",
        symbol := "USDC", balance := "7", block_number := 2, timestamp := "T2",
        date := "2024-01-01" }].filter (fun y => decide (rowKey y =
          keyOf "0xaaaaaaaaaaaaaaaaaaaaaaaaaaaaaaaaaaaaaaaa" 1
            NATIVE_TOKEN_ADDRESS "2024-01-01"))).length = 1 ∧
    ([{ wallet_address := "0xaaaaaaaaaaaaaaaaaaaaaaaaaaaaaaaaaaaaaaaa",
        network_id := 1, token_address := NATIVE_TOKEN_ADDRESS, symbol := "ETH",
        balance := "2", block_number := 2, timestamp := "T2", date := "2024-01-01" },
      { wallet_address := "0xaaaaaaaaaaaaaaaaaaaaaaaaaaaaaaaaaaaaaaaa",
        network_id := 1, token_address := "0xbbbbbbbbbbbbbbbbbbbbbbbbbbbbbbbbbbbbbbbb",
        symbol := "USDC", balance := "7", block_number := 2, timestamp := "T2",
        date := "2024-01-01" }].filter (fun y => decide (rowKey y =
          keyOf "0xaaaaaaaaaaaaaaaaaaaaaaaaaaaaaaaaaaaaaaaa" 1
            "0xbbbbbbbbbbbbbbbbbbbbbbbbbbbbbbbbbbbbbbbb" "2024-01-01"))).length = 1 ∧
    (∀ y ∈
      [({ wallet_address := "0xaaaaaaaaaaaaaaaaaaaaaaaaaaaaaaaaaaaaaaaa",
          network_id := 1, token_address := NATIVE_TOKEN_ADDRESS, symbol := "ETH",
          balance := "2", block_number := 2, timestamp := "T2",
          date := "2024-01-01" } : BalanceRowM),
       { wallet_address := "0xaaaaaaaaaaaaaaaaaaaaaaaaaaaaaaaaaaaaaaaa",
         network_id := 1, token_address := "0xbbbbbbbbbbbbbbbbbbbbbbbbbbbbbbbbbbbbbbbb",
         symbol := "USDC", balance := "7", block_number := 2, timestamp := "T2",
         date := "2024-01-01" }], rowKey y =
          keyOf "0xaaaaaaaaaaaaaaaaaaaaaaaaaaaaaaaaaaaaaaaa" 1
            "0xbbbbbbbbbbbbbbbbbbbbbbbbbbbbbbbbbbbbbbbb" "2024-01-01" →
      y.symbol = "USDC" ∧ y.balance = "7" ∧ y.block_number = 2 ∧
      y.timestamp = "T2") := by
  have h := saveBalances_last_write_wins
    [{ id := 1, name := "Ethereum", native_token := { symbol := "ETH", decimals := 18 },
       tokens := [] }]
    []
    [{ wallet_address := "0xaaaaaaaaaaaaaaaaaaaaaaaaaaaaaaaaaaaaaaaa",
       network_id := 1, token_address := NATIVE_TOKEN_ADDRESS, symbol := "ETH",
       balance := "1", block_number := 1, timestamp := "T1", date := "2024-01-01" },
     { wallet_address := "0xaaaaaaaaaaaaaaaaaaaaaaaaaaaaaaaaaaaaaaaa",
       network_id := 1, token_address := "0xbbbbbbbbbbbbbbbbbbbbbbbbbbbbbbbbbbbbbbbb",
       symbol := "USDC", balance := "5", block_number := 1, timestamp := "T1",
       date := "2024-01-01" }]
    [{ wallet_address := "0xaaaaaaaaaaaaaaaaaaaaaaaaaaaaaaaaaaaaaaaa",
       network_id := 1, token_address := NATIVE_TOKEN_ADDRESS, symbol := "ETH",
       balance := "2", block_number := 2, timestamp := "T2", date := "2024-01-01" },
     { wallet_address := "0xaaaaaaaaaaaaaaaaaaaaaaaaaaaaaaaaaaaaaaaa",
       network_id := 1, token_address := "0xbbbbbbbbbbbbbbbbbbbbbbbbbbbbbbbbbbbbbbbb",
       symbol := "USDC", balance := "7", block_number := 2, timestamp := "T2",
       date := "2024-01-01" }]
    { address := "0xaaaaaaaaaaaaaaaaaaaaaaaaaaaaaaaaaaaaaaaa", label := none,
      network := "Ethereum", network_id := 1, native_balance := "1",
      tokens := [{ address := "0xbbbbbbbbbbbbbbbbbbbbbbbbbbbbbbbbbbbbbbbb",
                   symbol := "USDC", balance := "5", decimals := 6 }],
      date := "" }
    { address := "0xaaaaaaaaaaaaaaaaaaaaaaaaaaaaaaaaaaaaaaaa", label := none,
      network := "Ethereum", network_id := 1, native_balance := "2",
      tokens := [{ address := "0xbbbbbbbbbbbbbbbbbbbbbbbbbbbbbbbbbbbbbbbb",
                   symbol := "USDC", balance := "7", decimals := 6 }],
      date := "" }
    1 2 "2024-01-01" "T1" "T2"
    { id := 1, name := "Ethereum", native_token := { symbol := "ETH", decimals := 18 },
      tokens := [] }
    "0xaaaaaaaaaaaaaaaaaaaaaaaaaaaaaaaaaaaaaaaa"
    List.Pairwise.nil (by decide) (by decide) (by decide) (by decide) (by decide)
  have htok := h.2.2.2.2.1
    { address := "0xbbbbbbbbbbbbbbbbbbbbbbbbbbbbbbbbbbbbbbbb",
      symbol := "USDC", balance := "7", decimals := 6 } (by decide)
    "0xbbbbbbbbbbbbbbbbbbbbbbbbbbbbbbbbbbbbbbbb" (by decide) (by decide)
  exact ⟨List.Pairwise.nil, by decide, by decide, h.2.2.1, htok.1, htok.2⟩
